import Mathlib

/-!
Verification development for the elasticode reconciliation engine.

The embedding models, from the Python sources under `src/elasticode/`:

* `types.py` — the `ResourceType` enumeration, `ResourceAction`, and the
  `DesiredResource` / `DiffResult` / `PlanItem` / `Plan` records;
* the five resource handlers under `resources/` (fetch / put / delete /
  normalize semantics), with the Elasticsearch cluster abstracted as a
  mapping from (kind, name) to a JSON body plus an event trace recording
  handler-level and client-level calls;
* `differ.py` — `diff_resource` and the two narrative formatters; the
  structural comparison delegated to the external `deepdiff` dependency is
  modelled from the spec's description of it (order-insensitive deep
  comparison producing per-category change records);
* `planner.py` — `generate_plan` over a caller-supplied list of desired
  resources (the list that `discover_resources` would supply);
* `applier.py` — `apply_plan` with per-item failure isolation.

JSON documents are modelled by the inductive type `Json` (numbers as `Int`;
the bodies the engine manipulates contain no floats that matter to any
claim).  Python `dict`s are association lists; the well-formedness
predicate `Json.WFb` states that every object has pairwise-distinct keys,
which Python dictionaries guarantee.
-/

/-- A JSON value.  Objects are association lists in insertion order, the
order Python dictionaries preserve. -/
inductive Json where
  | null : Json
  | bool : Bool → Json
  | num : Int → Json
  | str : String → Json
  | arr : List Json → Json
  | obj : List (String × Json) → Json

/-- First value bound to a key in an association list, mirroring a Python
dictionary lookup. -/
def lookupKey (k : String) : List (String × Json) → Option Json
  | [] => none
  | (k2, v) :: rest => if k2 = k then some v else lookupKey k rest

/-- Keys of an object are pairwise distinct (what Python dicts guarantee). -/
def keysNodup : List (String × Json) → Bool
  | [] => true
  | (k, _) :: rest => (!(rest.any (fun p => p.1 == k))) && keysNodup rest

mutual

/-- Well-formedness: every object in the document has pairwise-distinct
keys.  Every body produced by `json.load` or by the Elasticsearch client
satisfies this. -/
def Json.WFb : Json → Bool
  | .arr xs => wfList xs
  | .obj kvs => keysNodup kvs && wfObj kvs
  | _ => true
termination_by a => sizeOf a

/-- All members of a JSON array are well-formed. -/
def wfList : List Json → Bool
  | [] => true
  | x :: xs => x.WFb && wfList xs
termination_by xs => sizeOf xs

/-- All values of a JSON object are well-formed. -/
def wfObj : List (String × Json) → Bool
  | [] => true
  | (_, v) :: rest => v.WFb && wfObj rest
termination_by kvs => sizeOf kvs

end

/-- Does a key of `ys` also occur in `xs`?  Used for the backward key-set
inclusion of the unordered object comparison. -/
def keysBack (xs ys : List (String × Json)) : Bool :=
  ys.all (fun p => (lookupKey p.1 xs).isSome)

mutual

/-- Order-insensitive structural equality of JSON documents, following the
spec's description of the deep comparison: objects are unordered key sets,
sequences are order-insensitive multisets of elements, and the comparison
recurses through nested objects and sequences. -/
def deepEqual : Json → Json → Bool
  | .null, .null => true
  | .bool a, .bool b => a == b
  | .num a, .num b => a == b
  | .str a, .str b => a == b
  | .arr xs, .arr ys => msetEq xs ys
  | .obj xs, .obj ys => objFwd xs ys && keysBack xs ys
  | _, _ => false
termination_by a _ => (sizeOf a, 0)
decreasing_by
  all_goals simp_wf
  · exact Prod.Lex.left _ _ (by omega)
  · exact Prod.Lex.left _ _ (by omega)

/-- Multiset equality of two JSON sequences up to `deepEqual`: match every
element of the first list against a not-yet-matched element of the second. -/
def msetEq : List Json → List Json → Bool
  | [], ys => ys.isEmpty
  | x :: xs, ys =>
    match extractFirst x ys with
    | some ys2 => msetEq xs ys2
    | none => false
termination_by xs _ => (sizeOf xs, 0)
decreasing_by
  all_goals simp_wf
  · exact Prod.Lex.left _ _ (by omega)
  · exact Prod.Lex.left _ _ (by omega)

/-- Remove the first element of `ys` that is `deepEqual` to `x`; `none` when
no element matches. -/
def extractFirst : Json → List Json → Option (List Json)
  | _, [] => none
  | x, y :: ys =>
    if deepEqual x y then some ys
    else
      match extractFirst x ys with
      | some ys2 => some (y :: ys2)
      | none => none
termination_by x ys => (sizeOf x, sizeOf ys + 1)
decreasing_by
  all_goals simp_wf
  · exact Prod.Lex.right _ (by omega)
  · exact Prod.Lex.right _ (by omega)

/-- Every key of `xs` occurs in `ys` with a `deepEqual` value. -/
def objFwd : List (String × Json) → List (String × Json) → Bool
  | [], _ => true
  | (k, v) :: xs, ys =>
    (match lookupKey k ys with
     | some w => deepEqual v w
     | none => false) && objFwd xs ys
termination_by xs _ => (sizeOf xs, 0)
decreasing_by
  all_goals simp_wf
  · exact Prod.Lex.left _ _ (by omega)
  · exact Prod.Lex.left _ _ (by omega)

end

/-- The `ResourceType` enumeration exactly as `types.py` declares it: four
members.  The handler registry in `resources/__init__.py` and the Index
handler additionally reference a member `INDEX` that this enumeration does
not define (see the C1 theorem). -/
inductive ResourceType where
  | INDEX_TEMPLATE
  | COMPONENT_TEMPLATE
  | ILM_POLICY
  | INGEST_PIPELINE
deriving DecidableEq

/-- Values of the `types.py` enumeration members. -/
def ResourceType.value : ResourceType → String
  | .INDEX_TEMPLATE => "index_templates"
  | .COMPONENT_TEMPLATE => "component_templates"
  | .ILM_POLICY => "ilm_policies"
  | .INGEST_PIPELINE => "ingest_pipelines"

/-- The five resource kinds the handler registry `HANDLER_CLASSES` in
`resources/__init__.py` is keyed by, i.e. the kinds the five handler
implementations declare through their `resource_type` properties.  The
fifth kind `INDEX` is referenced by the registry and by `IndexHandler`
although `types.py` omits it from `ResourceType`. -/
inductive ResourceKind where
  | INDEX_TEMPLATE
  | COMPONENT_TEMPLATE
  | ILM_POLICY
  | INGEST_PIPELINE
  | INDEX
deriving DecidableEq

/-- Enumeration value of each kind (the `value` the tests expect, e.g.
`"indices"` for `INDEX` in `tests/resources/test_index.py`). -/
def ResourceKind.value : ResourceKind → String
  | .INDEX_TEMPLATE => "index_templates"
  | .COMPONENT_TEMPLATE => "component_templates"
  | .ILM_POLICY => "ilm_policies"
  | .INGEST_PIPELINE => "ingest_pipelines"
  | .INDEX => "indices"

/-- The `resource_type` property of the handler class the registry maps each
kind to (each handler returns its own kind). -/
def handler_resource_type : ResourceKind → ResourceKind
  | .INDEX_TEMPLATE => .INDEX_TEMPLATE
  | .COMPONENT_TEMPLATE => .COMPONENT_TEMPLATE
  | .ILM_POLICY => .ILM_POLICY
  | .INGEST_PIPELINE => .INGEST_PIPELINE
  | .INDEX => .INDEX

/-- The `directory_name` property of the handler class of each kind. -/
def handler_directory_name : ResourceKind → String
  | .INDEX_TEMPLATE => "index_templates"
  | .COMPONENT_TEMPLATE => "component_templates"
  | .ILM_POLICY => "ilm_policies"
  | .INGEST_PIPELINE => "ingest_pipelines"
  | .INDEX => "indices"

/-- The `ResourceAction` enumeration of `types.py`. -/
inductive ResourceAction where
  | CREATE
  | UPDATE
  | NO_CHANGE
deriving DecidableEq

/-- A change record of the structural comparison, tagged with the deepdiff
category it would be reported under. -/
inductive Change where
  | valuesChanged (path : String) (oldV newV : Json)
  | dictItemAdded (path : String) (v : Json)
  | dictItemRemoved (path : String) (v : Json)
  | iterItemAdded (path : String) (v : Json)
  | iterItemRemoved (path : String) (v : Json)
  | typeChanged (path : String) (oldV newV : Json)

/-- Path of a change record. -/
def Change.path : Change → String
  | .valuesChanged p _ _ => p
  | .dictItemAdded p _ => p
  | .dictItemRemoved p _ => p
  | .iterItemAdded p _ => p
  | .iterItemRemoved p _ => p
  | .typeChanged p _ _ => p

/-- Render a path extended by an object key, deepdiff style. -/
def keySeg (path k : String) : String := path ++ "[\x27" ++ k ++ "\x27]"

/-- Render a path extended by a sequence index, deepdiff style. -/
def idxSeg (path : String) (i : Nat) : String := path ++ "[" ++ toString i ++ "]"

/-- Unmatched elements after greedily matching the first list against the
second up to `deepEqual`: first component the unmatched elements of `xs`
(reported as removed), second the elements of `ys` no element of `xs` was
matched to (reported as added). -/
def leftover : List Json → List Json → List Json × List Json
  | [], ys => ([], ys)
  | x :: xs, ys =>
    match extractFirst x ys with
    | some ys2 => leftover xs ys2
    | none =>
      let p := leftover xs ys
      (x :: p.1, p.2)

/-- Change records for an order-insensitive sequence comparison. -/
def arrChanges (path : String) (xs ys : List Json) : List Change :=
  let p := leftover xs ys
  p.2.map (fun y => .iterItemAdded (idxSeg path (ys.findIdx (fun z => deepEqual z y))) y)
    ++ p.1.map (fun x => .iterItemRemoved (idxSeg path (xs.findIdx (fun z => deepEqual z x))) x)

/-- Keys present in the new object but absent from the old one. -/
def objAdded (path : String) (xs ys : List (String × Json)) : List Change :=
  (ys.filter (fun p => (lookupKey p.1 xs).isNone)).map
    (fun p => .dictItemAdded (keySeg path p.1) p.2)

mutual

/-- The structural deep comparison applied by `diff_resource`.  Modelled
from the spec: the comparison is performed by the external deepdiff
dependency (`DeepDiff(normalized_current, normalized_desired,
ignore_order=True, verbose_level=2)`); the spec describes it as a recursive
comparison that treats objects as unordered key sets and sequences as
order-insensitive multisets, producing tagged per-path change records.
The first argument is the old (current) document, the second the new
(desired) one. -/
def computeDiff (path : String) : Json → Json → List Change
  | .null, .null => []
  | .bool a, .bool b => if a == b then [] else [.valuesChanged path (.bool a) (.bool b)]
  | .num a, .num b => if a == b then [] else [.valuesChanged path (.num a) (.num b)]
  | .str a, .str b => if a == b then [] else [.valuesChanged path (.str a) (.str b)]
  | .arr xs, .arr ys => arrChanges path xs ys
  | .obj xs, .obj ys => objChanges path xs ys ++ objAdded path xs ys
  | a, b => [.typeChanged path a b]
termination_by a _ => (sizeOf a, 0)
decreasing_by
  all_goals simp_wf
  · exact Prod.Lex.left _ _ (by omega)

/-- Per-key change records over the keys of the old object: recurse on keys
present in both, report keys missing from the new object as removed. -/
def objChanges (path : String) : List (String × Json) → List (String × Json) → List Change
  | [], _ => []
  | (k, v) :: xs, ys =>
    (match lookupKey k ys with
     | some w => computeDiff (keySeg path k) v w
     | none => [.dictItemRemoved (keySeg path k) v]) ++ objChanges path xs ys
termination_by xs _ => (sizeOf xs, 0)
decreasing_by
  all_goals simp_wf
  · exact Prod.Lex.left _ _ (by omega)
  · exact Prod.Lex.left _ _ (by omega)

end

/-- Lower-case hex digit. -/
def hexDigit (n : Nat) : String :=
  if n < 10 then toString n
  else if n = 10 then "a"
  else if n = 11 then "b"
  else if n = 12 then "c"
  else if n = 13 then "d"
  else if n = 14 then "e"
  else "f"

/-- Four lower-case hex digits, as in a JSON `\uXXXX` escape. -/
def hex4 (n : Nat) : String :=
  hexDigit (n / 4096 % 16) ++ hexDigit (n / 256 % 16) ++ hexDigit (n / 16 % 16) ++ hexDigit (n % 16)

/-- Escape one character the way `json.dumps` does with its default
`ensure_ascii=True`. -/
def escChar (c : Char) : String :=
  if c = '"' then "\\\""
  else if c = '\\' then "\\\\"
  else if c = Char.ofNat 10 then "\\n"
  else if c = Char.ofNat 9 then "\\t"
  else if c = Char.ofNat 13 then "\\r"
  else if c = Char.ofNat 8 then "\\b"
  else if c = Char.ofNat 12 then "\\f"
  else if c.toNat < 32 then "\\u" ++ hex4 c.toNat
  else if c.toNat ≤ 126 then String.singleton c
  else if c.toNat ≤ 65535 then "\\u" ++ hex4 c.toNat
  else
    "\\u" ++ hex4 (55296 + (c.toNat - 65536) / 1024)
      ++ "\\u" ++ hex4 (56320 + (c.toNat - 65536) % 1024)

/-- Escape a string the way `json.dumps` renders string contents. -/
def escString (s : String) : String :=
  s.data.foldl (fun acc c => acc ++ escChar c) ""

mutual

/-- Model of `json.dumps(v)` without `indent`: compact one-line rendering
with the default `(", ", ": ")` separators, as used by
`_format_update_diff` in `differ.py`. -/
def dumps : Json → String
  | .null => "null"
  | .bool b => if b then "true" else "false"
  | .num n => toString n
  | .str s => "\"" ++ escString s ++ "\""
  | .arr xs => "[" ++ dumpsList xs ++ "]"
  | .obj kvs => "\x7b" ++ dumpsObj kvs ++ "\x7d"
termination_by a => sizeOf a

/-- Comma-separated compact rendering of array elements. -/
def dumpsList : List Json → String
  | [] => ""
  | [x] => dumps x
  | x :: xs => dumps x ++ ", " ++ dumpsList xs
termination_by xs => sizeOf xs

/-- Comma-separated compact rendering of object entries. -/
def dumpsObj : List (String × Json) → String
  | [] => ""
  | [(k, v)] => "\"" ++ escString k ++ "\": " ++ dumps v
  | (k, v) :: kvs => "\"" ++ escString k ++ "\": " ++ dumps v ++ ", " ++ dumpsObj kvs
termination_by kvs => sizeOf kvs

end

/-- Indentation of `level` levels at `indent=2`: two spaces per level. -/
def pad : Nat → String
  | 0 => ""
  | n + 1 => "  " ++ pad n

/-- Indent the first line of a rendered block (continuation lines carry
their own indentation already). -/
def indentFirst (ind : Nat) : List String → List String
  | [] => []
  | l :: ls => (pad ind ++ l) :: ls

/-- Prefix the first line of a rendered block with its indented, escaped
object key. -/
def keyFirst (ind : Nat) (k : String) : List String → List String
  | [] => [pad ind ++ "\"" ++ escString k ++ "\": "]
  | l :: ls => (pad ind ++ "\"" ++ escString k ++ "\": " ++ l) :: ls

/-- Append the separating comma to the last line of a rendered block. -/
def addComma : List String → List String
  | [] => []
  | [l] => [l ++ ","]
  | l :: ls => l :: addComma ls

mutual

/-- Model of `json.dumps(v, indent=2).splitlines()`: the lines of the
indented rendering.  The first line of a block carries no leading
indentation (the caller supplies the key or element indentation), and
continuation lines are fully indented. -/
def render (ind : Nat) : Json → List String
  | .arr [] => ["[]"]
  | .arr xs => "[" :: entriesA (ind + 1) xs ++ [pad ind ++ "]"]
  | .obj [] => ["\x7b\x7d"]
  | .obj kvs => "\x7b" :: entriesO (ind + 1) kvs ++ [pad ind ++ "\x7d"]
  | v => [dumps v]
termination_by a => sizeOf a
decreasing_by
  all_goals simp_wf

/-- Lines of the comma-separated array entries of an indented rendering. -/
def entriesA (ind : Nat) : List Json → List String
  | [] => []
  | [x] => indentFirst ind (render ind x)
  | x :: xs => addComma (indentFirst ind (render ind x)) ++ entriesA ind xs
termination_by xs => sizeOf xs
decreasing_by
  all_goals simp_wf <;> omega

/-- Lines of the comma-separated object entries of an indented rendering. -/
def entriesO (ind : Nat) : List (String × Json) → List String
  | [] => []
  | [(k, v)] => keyFirst ind k (render ind v)
  | (k, v) :: kvs => addComma (keyFirst ind k (render ind v)) ++ entriesO ind kvs
termination_by kvs => sizeOf kvs
decreasing_by
  all_goals simp_wf <;> omega

end

/-- Model of `"\n".join(lines)`. -/
def joinLines : List String → String
  | [] => ""
  | [l] => l
  | l :: ls => l ++ "\n" ++ joinLines ls

/-- Lines of `_format_create_diff`: every line of the indented dump of the
body, prefixed with `"+ "`. -/
def createDiffLines (body : Json) : List String :=
  (render 0 body).map (fun l => "+ " ++ l)

/-- Model of `_format_create_diff` in `differ.py`. -/
def _format_create_diff (body : Json) : String :=
  joinLines (createDiffLines body)

/-- Lines a single change record contributes in `_format_update_diff`. -/
def changeLines : Change → List String
  | .valuesChanged p o n => ["  ~ " ++ p ++ ":", "    - " ++ dumps o, "    + " ++ dumps n]
  | .dictItemAdded p v => ["  + " ++ p ++ ": " ++ dumps v]
  | .dictItemRemoved p v => ["  - " ++ p ++ ": " ++ dumps v]
  | .iterItemAdded p v => ["  + " ++ p ++ ": " ++ dumps v]
  | .iterItemRemoved p v => ["  - " ++ p ++ ": " ++ dumps v]
  | .typeChanged p o n => ["  ~ " ++ p ++ ":", "    - " ++ dumps o, "    + " ++ dumps n]

/-- Category predicates mirroring the deepdiff result keys. -/
def Change.isValuesChanged : Change → Bool
  | .valuesChanged _ _ _ => true
  | _ => false

/-- Membership in the `dictionary_item_added` category. -/
def Change.isDictItemAdded : Change → Bool
  | .dictItemAdded _ _ => true
  | _ => false

/-- Membership in the `dictionary_item_removed` category. -/
def Change.isDictItemRemoved : Change → Bool
  | .dictItemRemoved _ _ => true
  | _ => false

/-- Membership in the `iterable_item_added` category. -/
def Change.isIterItemAdded : Change → Bool
  | .iterItemAdded _ _ => true
  | _ => false

/-- Membership in the `iterable_item_removed` category. -/
def Change.isIterItemRemoved : Change → Bool
  | .iterItemRemoved _ _ => true
  | _ => false

/-- Membership in the `type_changes` category. -/
def Change.isTypeChanged : Change → Bool
  | .typeChanged _ _ _ => true
  | _ => false

/-- Lines of `_format_update_diff`: the six deepdiff categories rendered in
the order the Python code iterates them. -/
def updateDiffLines (cs : List Change) : List String :=
  ((cs.filter Change.isValuesChanged).map changeLines).flatten
    ++ ((cs.filter Change.isDictItemAdded).map changeLines).flatten
    ++ ((cs.filter Change.isDictItemRemoved).map changeLines).flatten
    ++ ((cs.filter Change.isIterItemAdded).map changeLines).flatten
    ++ ((cs.filter Change.isIterItemRemoved).map changeLines).flatten
    ++ ((cs.filter Change.isTypeChanged).map changeLines).flatten

/-- Model of `_format_update_diff` in `differ.py`. -/
def _format_update_diff (cs : List Change) : String :=
  joinLines (updateDiffLines cs)

/-- Substring test: does `s` contain `pat`? -/
def strContains (s pat : String) : Bool := decide (pat.data <:+: s.data)

/-- Server-managed index settings fields stripped by the Index handler
(`_SERVER_MANAGED_FIELDS` in `resources/index.py`). -/
def _SERVER_MANAGED_FIELDS : List String :=
  ["creation_date", "uuid", "version", "provided_name", "routing_num_shards",
   "routing_partition_size", "shard", "store"]

/-- Remove every entry whose key occurs in `names` (the effect of the
`pop` loops of the handlers, on a dict whose keys are distinct). -/
def stripKeys (names : List String) (kvs : List (String × Json)) : List (String × Json) :=
  kvs.filter (fun p => !(names.contains p.1))

/-- Copy a JSON object and pop the listed top-level keys; the shared shape
of the template, pipeline and policy `normalize` implementations.  The
Python implementations receive a `dict`, so only the object case is in the
modelled domain. -/
def stripTop (names : List String) : Json → Json
  | .obj kvs => .obj (stripKeys names kvs)
  | v => v

/-- Replace the value bound to an existing key, keeping its position — the
effect of a Python dict item assignment on a present key. -/
def replaceKey (k : String) (v : Json) : List (String × Json) → List (String × Json)
  | [] => []
  | (k2, w) :: rest => if k2 = k then (k2, v) :: rest else (k2, w) :: replaceKey k v rest

/-- Model of `IndexHandler.normalize`: when the body has a `settings`
section containing an `index` sub-object, pop the server-managed fields
from that sub-object and rebind `settings` to an object holding only the
cleaned `index` entry; otherwise the body is returned unchanged.  A
non-object `settings` or `settings.index` value would make the Python code
raise; such bodies are outside the modelled domain and the theorems about
this function restrict to bodies where these values, when present, are
objects. -/
def IndexHandler_normalize (body : Json) : Json :=
  match body with
  | .obj kvs =>
    match lookupKey "settings" kvs with
    | some (.obj s) =>
      match lookupKey "index" s with
      | some (.obj idx) =>
        .obj (replaceKey "settings"
          (.obj [("index", .obj (stripKeys _SERVER_MANAGED_FIELDS idx))]) kvs)
      | _ => body
    | _ => body
  | _ => body

/-- The `normalize` method of the handler registered for each kind:
templates and pipelines pop top-level `version`, lifecycle policies pop the
four server-managed fields, and the Index handler is modelled by
`IndexHandler_normalize`. -/
def Handler_normalize : ResourceKind → Json → Json
  | .INDEX_TEMPLATE, b => stripTop ["version"] b
  | .COMPONENT_TEMPLATE, b => stripTop ["version"] b
  | .INGEST_PIPELINE, b => stripTop ["version"] b
  | .ILM_POLICY, b =>
      stripTop ["version", "modified_date", "modified_date_millis", "in_use_by"] b
  | .INDEX, b => IndexHandler_normalize b

/-- The remote cluster state: a mapping from (kind, name) to the stored
JSON body. -/
def Cluster := ResourceKind × String → Option Json

/-- Read one resource from the cluster. -/
def Cluster.get (c : Cluster) (k : ResourceKind) (n : String) : Option Json := c (k, n)

/-- Store one resource in the cluster. -/
def Cluster.set (c : Cluster) (k : ResourceKind) (n : String) (b : Json) : Cluster :=
  fun key => if key = (k, n) then some b else c key

/-- Remove one resource from the cluster. -/
def Cluster.del (c : Cluster) (k : ResourceKind) (n : String) : Cluster :=
  fun key => if key = (k, n) then none else c key

/-- Observable calls against the cluster: handler-level `put`/`delete`
invocations and the underlying client-level write and delete requests the
handlers issue. -/
inductive ESEvent where
  | putCall (k : ResourceKind) (name : String) (body : Json)
  | deleteCall (k : ResourceKind) (name : String)
  | clientWrite (k : ResourceKind) (name : String) (body : Json)
  | clientDelete (k : ResourceKind) (name : String)

/-- Cluster state together with the trace of calls performed so far. -/
structure ESState where
  cluster : Cluster
  trace : List ESEvent

/-- Exceptions of the modelled Python code: `IndexUpdateError` (the
dedicated create-only violation class of `resources/index.py`, the spec
taxonomy kind ImmutableResourceError), `NotImplementedError` (what
`IndexHandler.delete` raises, the spec taxonomy kind
UnsupportedOperationError) and `ApplyError` from `errors.py`. -/
inductive PyError where
  | IndexUpdateError (msg : String)
  | NotImplementedError (msg : String)
  | ApplyError (msg : String)

/-- The message `IndexHandler.put` raises for an existing index. -/
def indexExistsMsg (name : String) : String :=
  "Index \x27" ++ name ++ "\x27 already exists. Indices cannot be updated in-place "
    ++ "(they are largely immutable). To modify an index, you must delete it first "
    ++ "or use the reindex API."

/-- The message `IndexHandler.delete` raises. -/
def indexDeleteMsg (name : String) : String :=
  "Deleting index \x27" ++ name ++ "\x27 is not supported by Elasticode for safety. "
    ++ "Indices contain data and deleting them is destructive. If you need to delete "
    ++ "an index, use the Elasticsearch API directly."

/-- The `put` method of the handler registered for each kind.  The four
non-index handlers forward to the client write API unconditionally,
overwriting whatever is stored.  `IndexHandler.put` first checks
`indices.exists`; when the index already exists it raises
`IndexUpdateError` without issuing the client create call, otherwise it
creates the index. -/
def handler_put (k : ResourceKind) (name : String) (body : Json) (st : ESState) :
    ESState × Option PyError :=
  match k with
  | .INDEX =>
    if (st.cluster.get .INDEX name).isSome then
      ({ st with trace := st.trace ++ [.putCall k name body] },
       some (.IndexUpdateError (indexExistsMsg name)))
    else
      ({ cluster := st.cluster.set k name body,
         trace := st.trace ++ [.putCall k name body, .clientWrite k name body] }, none)
  | _ =>
      ({ cluster := st.cluster.set k name body,
         trace := st.trace ++ [.putCall k name body, .clientWrite k name body] }, none)

/-- The `delete` method of the handler registered for each kind.
`IndexHandler.delete` raises `NotImplementedError` unconditionally and
never issues the client delete call; the other handlers delete through the
client API. -/
def handler_delete (k : ResourceKind) (name : String) (st : ESState) :
    ESState × Option PyError :=
  match k with
  | .INDEX =>
      ({ st with trace := st.trace ++ [.deleteCall k name] },
       some (.NotImplementedError (indexDeleteMsg name)))
  | _ =>
      ({ cluster := st.cluster.del k name,
         trace := st.trace ++ [.deleteCall k name, .clientDelete k name] }, none)

/-- The `get` method of each handler: fetch the stored body, translating
the transport-level not-found condition to `none`. -/
def handler_get (k : ResourceKind) (name : String) (c : Cluster) : Option Json :=
  c.get k name

/-- A resource loaded from a local JSON file (`types.py`; the `file_path`
field plays no role in the reconciliation engine and is omitted). -/
structure DesiredResource where
  name : String
  resource_type : ResourceKind
  body : Json

/-- The result of comparing desired and current state (`types.py`). -/
structure DiffResult where
  resource_name : String
  resource_type : ResourceKind
  action : ResourceAction
  desired : Option Json
  current : Option Json
  diff_details : String

/-- A single action in a plan (`types.py`). -/
structure PlanItem where
  resource_name : String
  resource_type : ResourceKind
  action : ResourceAction
  desired_body : Option Json
  diff_details : String

/-- A complete plan of changes to apply (`types.py`). -/
structure Plan where
  cluster_name : String
  items : List PlanItem

/-- Derived view: does the plan contain any actionable item? -/
def Plan.has_changes (p : Plan) : Bool :=
  p.items.any (fun i => decide (i.action ≠ ResourceAction.NO_CHANGE))

/-- Derived view: the Create items. -/
def Plan.creates (p : Plan) : List PlanItem :=
  p.items.filter (fun i => decide (i.action = ResourceAction.CREATE))

/-- Derived view: the Update items. -/
def Plan.updates (p : Plan) : List PlanItem :=
  p.items.filter (fun i => decide (i.action = ResourceAction.UPDATE))

/-- Derived view: the NoChange items. -/
def Plan.unchanged (p : Plan) : List PlanItem :=
  p.items.filter (fun i => decide (i.action = ResourceAction.NO_CHANGE))

/-- Model of `diff_resource` in `differ.py`: fetch the current state; when
absent report a Create with the full body rendered as additions; otherwise
normalize both sides, run the structural comparison, and report NoChange on
an empty diff or an Update with the formatted narrative. -/
def diff_resource (desired : DesiredResource) (c : Cluster) : DiffResult :=
  match handler_get desired.resource_type desired.name c with
  | none =>
    { resource_name := desired.name
      resource_type := desired.resource_type
      action := .CREATE
      desired := some desired.body
      current := none
      diff_details := _format_create_diff desired.body }
  | some current =>
    let normalized_desired := Handler_normalize desired.resource_type desired.body
    let normalized_current := Handler_normalize desired.resource_type current
    let deep_diff := computeDiff "root" normalized_current normalized_desired
    if deep_diff.isEmpty then
      { resource_name := desired.name
        resource_type := desired.resource_type
        action := .NO_CHANGE
        desired := some desired.body
        current := some current
        diff_details := "" }
    else
      { resource_name := desired.name
        resource_type := desired.resource_type
        action := .UPDATE
        desired := some desired.body
        current := some current
        diff_details := _format_update_diff deep_diff }

/-- Projection of one diff result into a plan item, as built inline in
`generate_plan`: the body to apply is the desired body, dropped when the
action is NoChange. -/
def planItemFor (desired : DesiredResource) (c : Cluster) : PlanItem :=
  let diff := diff_resource desired c
  { resource_name := diff.resource_name
    resource_type := diff.resource_type
    action := diff.action
    desired_body := if diff.action ≠ ResourceAction.NO_CHANGE then some desired.body else none
    diff_details := diff.diff_details }

/-- Model of `generate_plan` in `planner.py`, over the list of desired
resources that `discover_resources` supplies (the external Loader). -/
def generate_plan (cluster_name : String) (desired_resources : List DesiredResource)
    (c : Cluster) : Plan :=
  { cluster_name := cluster_name
    items := desired_resources.map (fun r => planItemFor r c) }

/-- Outcome of applying one plan item, pairing the item with the exception
captured for it, if any — the information the applier prints per item. -/
structure ItemResult where
  item : PlanItem
  error : Option PyError

/-- Model of `_apply_item` in `applier.py`: a missing body on an actionable
item raises `ApplyError`; otherwise the item is written through its
handler. -/
def _apply_item (item : PlanItem) (st : ESState) : ESState × Option PyError :=
  match item.desired_body with
  | none => (st, some (.ApplyError ("No desired body for " ++ item.resource_name)))
  | some b => handler_put item.resource_type item.resource_name b st

/-- Sequential application of the actionable items: each item is applied in
order, its outcome recorded, and a failure never stops the processing of
the remaining items.  Returns the final state, the per-item results in
order, and the `all_ok` aggregate. -/
def applyChanges : List PlanItem → ESState → ESState × List ItemResult × Bool
  | [], st => (st, [], true)
  | it :: rest, st =>
    let r := _apply_item it st
    let next := applyChanges rest r.1
    (next.1, ⟨it, r.2⟩ :: next.2.1, r.2.isNone && next.2.2)

/-- Model of `apply_plan` in `applier.py`: filter the plan to the items
whose action is not NoChange and apply them sequentially with per-item
isolation; an empty filtered list means immediate success with no calls. -/
def apply_plan (plan : Plan) (st : ESState) : ESState × List ItemResult × Bool :=
  applyChanges (plan.items.filter (fun i => decide (i.action ≠ ResourceAction.NO_CHANGE))) st

/-- Key of a plan item in the cluster map. -/
def keyOf (it : PlanItem) : ResourceKind × String := (it.resource_type, it.resource_name)

/-- The Index normalization as claim C3 words it (for refinement
comparison only): the eight server-managed fields are stripped from the
`settings` sub-object itself, every other part of the body passes through
unchanged, and a body without `settings` is returned unchanged. -/
def normalizeClaimC3 : Json → Json
  | .obj kvs =>
    match lookupKey "settings" kvs with
    | some (.obj s) =>
      .obj (replaceKey "settings" (.obj (stripKeys _SERVER_MANAGED_FIELDS s)) kvs)
    | _ => .obj kvs
  | v => v

/-- A cluster with no resources. -/
def emptyCluster : Cluster := fun _ => none

/-- Sample stored body of the existing index `logs`. -/
def logsBody : Json :=
  .obj [("settings", .obj [("index", .obj [("number_of_shards", .str "2")])])]

/-- Sample desired body for the index `logs`, differing from the stored
one. -/
def logsDesired : Json :=
  .obj [("settings", .obj [("index", .obj [("number_of_shards", .str "1")])])]

/-- Sample stored body of the lifecycle policy `logs-policy`. -/
def ilmCur : Json :=
  .obj [("policy", .obj [("phases", .arr [.str "hot", .str "warm"]),
         ("min_age", .str "30d")]), ("version", .num 3)]

/-- Sample desired body for `logs-policy` that differs from `ilmCur` only
in list order and in the server-managed `version` field. -/
def ilmDesSame : Json :=
  .obj [("version", .num 9), ("policy", .obj [("min_age", .str "30d"),
         ("phases", .arr [.str "warm", .str "hot"])])]

/-- Sample desired body for `logs-policy` with an actual change
(`min_age` 30d → 90d). -/
def ilmDesChanged : Json :=
  .obj [("policy", .obj [("phases", .arr [.str "hot", .str "warm"]),
         ("min_age", .str "90d")]), ("version", .num 3)]

/-- Sample desired body for a new ingest pipeline. -/
def pipBody : Json :=
  .obj [("description", .str "parse"), ("processors", .arr [])]

/-- Sample desired body for a new index template. -/
def tmplBody : Json :=
  .obj [("template", .obj []), ("priority", .num 5)]

/-- Sample cluster: the index `logs` and the lifecycle policy
`logs-policy` exist, nothing else does. -/
def sampleCluster : Cluster := fun key =>
  if key = (.INDEX, "logs") then some logsBody
  else if key = (.ILM_POLICY, "logs-policy") then some ilmCur
  else none

/-- Sample state over `sampleCluster` with an empty trace. -/
def sampleState : ESState := ⟨sampleCluster, []⟩

/-- Sample desired resource: an update to the existing index `logs`. -/
def rIdxUpd : DesiredResource := ⟨"logs", .INDEX, logsDesired⟩

/-- The C3 counterexample body: its `settings` section holds both an
`index` sub-object (with one server-managed and one user field) and an
`analysis` sibling. -/
def c3body : Json :=
  .obj [("settings", .obj [("index", .obj [("uuid", .str "u"),
         ("refresh_interval", .str "1s")]),
         ("analysis", .obj [("x", .num 1)])]),
        ("mappings", .obj [])]

/-- Plan item attempting an update of the existing index `logs`. -/
def itIdxFail : PlanItem := ⟨"logs", .INDEX, .UPDATE, some logsDesired, ""⟩

/-- Actionable plan item that carries no body to apply. -/
def itNoBody : PlanItem := ⟨"p", .INGEST_PIPELINE, .CREATE, none, ""⟩

/-- Actionable plan item creating the pipeline `p1`. -/
def itPipe : PlanItem := ⟨"p1", .INGEST_PIPELINE, .CREATE, some pipBody, ""⟩

/-- Actionable plan item updating `logs-policy`. -/
def itIlm : PlanItem := ⟨"logs-policy", .ILM_POLICY, .UPDATE, some ilmDesChanged, ""⟩

/-- The C7 counterexample plan: a failing index update followed by an
actionable item without a body. -/
def planC7ce : Plan := ⟨"prod", [itIdxFail, itNoBody]⟩

/-- Three-item plan of the spec isolation scenario: items 1 and 3 succeed,
item 2 (the index update) fails. -/
def planC7w : Plan := ⟨"prod", [itPipe, itIdxFail, itIlm]⟩

theorem leftover_eq_nil_iff (xs : List Json) : ∀ ys,
    leftover xs ys = ([], []) ↔ msetEq xs ys = true := by
  induction xs with
  | nil =>
    intro ys
    simp [leftover, msetEq, List.isEmpty_iff]
  | cons x xs ih =>
    intro ys
    cases h : extractFirst x ys with
    | some ys2 => simp [leftover, msetEq, h, ih ys2]
    | none => simp [leftover, msetEq, h]

theorem arrChanges_isEmpty (path : String) (xs ys : List Json) :
    (arrChanges path xs ys).isEmpty = msetEq xs ys := by
  rw [Bool.eq_iff_iff]
  constructor
  · intro h
    rw [← leftover_eq_nil_iff]
    simp [arrChanges, List.isEmpty_iff] at h
    exact Prod.ext h.2 h.1
  · intro h
    rw [← leftover_eq_nil_iff] at h
    simp [arrChanges, h, List.isEmpty_iff]

theorem isEmpty_append {α : Type} (l1 l2 : List α) :
    (l1 ++ l2).isEmpty = (l1.isEmpty && l2.isEmpty) := by
  cases l1 <;> simp

theorem objAdded_isEmpty (path : String) (xs ys : List (String × Json)) :
    (objAdded path xs ys).isEmpty = keysBack xs ys := by
  rw [Bool.eq_iff_iff]
  simp only [objAdded, keysBack, List.isEmpty_iff, List.map_eq_nil_iff,
    List.filter_eq_nil_iff, List.all_eq_true]
  constructor
  · intro h p hp
    have h2 := h p hp
    simp only [Option.isNone_iff_eq_none] at h2
    simpa [Option.isSome_iff_ne_none] using h2
  · intro h p hp
    have h2 := h p hp
    simp only [Option.isSome_iff_ne_none] at h2
    simpa [Option.isNone_iff_eq_none] using h2

theorem objChanges_isEmpty (path : String) (xs ys : List (String × Json))
    (ih : ∀ p ∈ xs, ∀ (w : Json) (q : String),
      (computeDiff q p.2 w).isEmpty = deepEqual p.2 w) :
    (objChanges path xs ys).isEmpty = objFwd xs ys := by
  induction xs with
  | nil => simp [objChanges, objFwd]
  | cons p xs ihl =>
    obtain ⟨k, v⟩ := p
    cases h : lookupKey k ys with
    | some w =>
      have hv : (computeDiff (keySeg path k) v w).isEmpty = deepEqual v w :=
        ih (k, v) (by simp) w (keySeg path k)
      have hrest := ihl (fun q hq => ih q (by simp [hq]))
      simp [objChanges, objFwd, h, isEmpty_append, hv, hrest]
    | none =>
      simp [objChanges, objFwd, h, isEmpty_append]

theorem sizeOf_snd_lt_obj {p : String × Json} {xs : List (String × Json)}
    (hp : p ∈ xs) : sizeOf p.2 < sizeOf (Json.obj xs) := by
  have h1 := List.sizeOf_lt_of_mem hp
  obtain ⟨k, v⟩ := p
  simp at h1 ⊢
  omega

theorem computeDiff_isEmpty (a b : Json) (path : String) :
    (computeDiff path a b).isEmpty = deepEqual a b := by
  cases a with
  | null => cases b <;> simp [computeDiff, deepEqual]
  | bool x =>
    cases b <;> simp [computeDiff, deepEqual]
    case bool y => cases h : x == y <;> simp_all
  | num x =>
    cases b <;> simp [computeDiff, deepEqual]
    case num y => cases h : x == y <;> simp_all
  | str x =>
    cases b <;> simp [computeDiff, deepEqual]
    case str y => cases h : x == y <;> simp_all
  | arr xs =>
    cases b <;> simp [computeDiff, deepEqual]
    case arr ys => exact arrChanges_isEmpty path xs ys
  | obj xs =>
    cases b <;> simp [computeDiff, deepEqual]
    case obj ys =>
      rw [isEmpty_append, objChanges_isEmpty path xs ys, objAdded_isEmpty]
      intro p hp w q
      have : sizeOf p.2 < sizeOf (Json.obj xs) := sizeOf_snd_lt_obj hp
      exact computeDiff_isEmpty p.2 w q
termination_by (sizeOf a, 0)
decreasing_by
  exact Prod.Lex.left _ _ this

theorem lookup_mem {k : String} {v : Json} {kvs : List (String × Json)}
    (h : lookupKey k kvs = some v) : (k, v) ∈ kvs := by
  induction kvs with
  | nil => simp [lookupKey] at h
  | cons p rest ih =>
    obtain ⟨k2, w⟩ := p
    by_cases h2 : k2 = k
    · subst h2
      simp [lookupKey] at h
      simp [h]
    · simp [lookupKey, h2] at h
      exact List.mem_cons_of_mem _ (ih h)

theorem lookup_isSome_of_mem {k : String} {v : Json} {kvs : List (String × Json)}
    (h : (k, v) ∈ kvs) : (lookupKey k kvs).isSome = true := by
  induction kvs with
  | nil => simp at h
  | cons p rest ih =>
    obtain ⟨k2, w⟩ := p
    by_cases h2 : k2 = k
    · simp [lookupKey, h2]
    · rcases List.mem_cons.1 h with h3 | h3
      · exact absurd (congrArg Prod.fst h3).symm h2
      · simp [lookupKey, h2]
        exact ih h3

theorem lookup_self {k : String} {v : Json} {kvs : List (String × Json)}
    (hnd : keysNodup kvs = true) (h : (k, v) ∈ kvs) : lookupKey k kvs = some v := by
  induction kvs with
  | nil => simp at h
  | cons p rest ih =>
    obtain ⟨k2, w⟩ := p
    rw [keysNodup] at hnd
    simp at hnd
    rcases List.mem_cons.1 h with h3 | h3
    · rw [Prod.mk.injEq] at h3
      obtain ⟨h4, h5⟩ := h3
      subst h4
      subst h5
      simp [lookupKey]
    · have h2 : k2 ≠ k := by
        intro he
        exact hnd.1 k v h3 he.symm
      simp [lookupKey, h2]
      exact ih hnd.2 h3
theorem wfList_mem {x : Json} {xs : List Json} (hw : wfList xs = true) (h : x ∈ xs) :
    Json.WFb x = true := by
  induction xs with
  | nil => simp at h
  | cons y ys ih =>
    rw [wfList] at hw
    simp at hw
    rcases List.mem_cons.1 h with h3 | h3
    · exact h3 ▸ hw.1
    · exact ih hw.2 h3

theorem wfObj_mem {k : String} {v : Json} {kvs : List (String × Json)}
    (hw : wfObj kvs = true) (h : (k, v) ∈ kvs) : Json.WFb v = true := by
  induction kvs with
  | nil => simp at h
  | cons p rest ih =>
    obtain ⟨k2, w⟩ := p
    rw [wfObj] at hw
    simp at hw
    rcases List.mem_cons.1 h with h3 | h3
    · rw [Prod.mk.injEq] at h3
      exact h3.2 ▸ hw.1
    · exact ih hw.2 h3

theorem msetEq_refl {xs : List Json} (h : ∀ x ∈ xs, deepEqual x x = true) :
    msetEq xs xs = true := by
  induction xs with
  | nil => simp [msetEq]
  | cons x rest ih =>
    have hx := h x (by simp)
    rw [msetEq, extractFirst]
    simp [hx]
    exact ih (fun y hy => h y (by simp [hy]))

theorem objFwd_of_forall {sub xs : List (String × Json)}
    (hmem : ∀ p ∈ sub, p ∈ xs) (hnd : keysNodup xs = true)
    (h : ∀ p ∈ xs, deepEqual p.2 p.2 = true) : objFwd sub xs = true := by
  induction sub with
  | nil => simp [objFwd]
  | cons p rest ih =>
    obtain ⟨k, v⟩ := p
    have hin : (k, v) ∈ xs := hmem (k, v) (by simp)
    rw [objFwd, lookup_self hnd hin]
    simp
    exact ⟨h (k, v) hin, ih (fun q hq => hmem q (by simp [hq]))⟩

theorem keysBack_refl {xs : List (String × Json)} : keysBack xs xs = true := by
  simp [keysBack, List.all_eq_true]
  intro a b h
  exact lookup_isSome_of_mem h

theorem deepEqual_refl_aux :
    ∀ (n : Nat) (a : Json), sizeOf a ≤ n → Json.WFb a = true → deepEqual a a = true := by
  intro n
  induction n with
  | zero =>
    intro a ha h
    cases a <;> simp at ha
  | succ n ih =>
    intro a ha h
    cases a with
    | null => simp [deepEqual]
    | bool x => simp [deepEqual]
    | num x => simp [deepEqual]
    | str x => simp [deepEqual]
    | arr xs =>
      rw [Json.WFb] at h
      rw [deepEqual]
      refine msetEq_refl (fun x hx => ?_)
      have hs : sizeOf x ≤ n := by
        have := List.sizeOf_lt_of_mem hx
        simp at ha
        omega
      exact ih x hs (wfList_mem h hx)
    | obj kvs =>
      rw [Json.WFb] at h
      simp at h
      rw [deepEqual]
      simp [keysBack_refl]
      refine objFwd_of_forall (fun p hp => hp) h.1 (fun p hp => ?_)
      have hs : sizeOf p.2 ≤ n := by
        have := sizeOf_snd_lt_obj hp
        simp at this ha
        omega
      obtain ⟨k, v⟩ := p
      exact ih v hs (wfObj_mem h.2 hp)

theorem deepEqual_refl (a : Json) (h : Json.WFb a = true) : deepEqual a a = true :=
  deepEqual_refl_aux (sizeOf a) a le_rfl h

theorem any_of_any_filter {f p : String × Json → Bool} {kvs : List (String × Json)}
    (h : (kvs.filter f).any p = true) : kvs.any p = true := by
  rw [List.any_eq_true] at h ⊢
  obtain ⟨x, hx, hp⟩ := h
  exact ⟨x, List.mem_of_mem_filter hx, hp⟩

theorem keysNodup_filter {f : String × Json → Bool} {kvs : List (String × Json)}
    (h : keysNodup kvs = true) : keysNodup (kvs.filter f) = true := by
  induction kvs with
  | nil => simp [keysNodup]
  | cons p rest ih =>
    obtain ⟨k, v⟩ := p
    rw [keysNodup, Bool.and_eq_true] at h
    obtain ⟨h1, h2⟩ := h
    by_cases hf : f (k, v)
    · rw [List.filter_cons_of_pos hf, keysNodup, Bool.and_eq_true]
      refine ⟨?_, ih h2⟩
      have hfa : (rest.filter f).any (fun p2 => p2.1 == k) = false := by
        cases hq : (rest.filter f).any (fun p2 => p2.1 == k) with
        | false => rfl
        | true =>
          rw [any_of_any_filter hq] at h1
          simp at h1
      simp [hfa]
    · rw [List.filter_cons_of_neg hf]
      exact ih h2

theorem wfObj_filter {f : String × Json → Bool} {kvs : List (String × Json)}
    (h : wfObj kvs = true) : wfObj (kvs.filter f) = true := by
  induction kvs with
  | nil => simp [wfObj]
  | cons p rest ih =>
    obtain ⟨k, v⟩ := p
    rw [wfObj, Bool.and_eq_true] at h
    by_cases hf : f (k, v)
    · rw [List.filter_cons_of_pos hf, wfObj, Bool.and_eq_true]
      exact ⟨h.1, ih h.2⟩
    · rw [List.filter_cons_of_neg hf]
      exact ih h.2

theorem stripTop_WF (names : List String) (b : Json) (h : Json.WFb b = true) :
    Json.WFb (stripTop names b) = true := by
  cases b with
  | obj kvs =>
    rw [Json.WFb, Bool.and_eq_true] at h
    rw [stripTop, stripKeys, Json.WFb, Bool.and_eq_true]
    exact ⟨keysNodup_filter h.1, wfObj_filter h.2⟩
  | null => exact h
  | bool x => exact h
  | num x => exact h
  | str x => exact h
  | arr xs => exact h

theorem any_fst_replaceKey (k : String) (v : Json) (q : String × Json → Bool)
    (hq : ∀ k2 v1 v2, q (k2, v1) = q (k2, v2)) (kvs : List (String × Json)) :
    (replaceKey k v kvs).any q = kvs.any q := by
  induction kvs with
  | nil => simp [replaceKey]
  | cons p rest ih =>
    obtain ⟨k2, w⟩ := p
    by_cases h2 : k2 = k
    · subst h2
      rw [replaceKey, if_pos rfl]
      simp [hq k2 v w]
    · rw [replaceKey, if_neg h2]
      simp [ih]

theorem keysNodup_replaceKey (k : String) (v : Json) (kvs : List (String × Json))
    (h : keysNodup kvs = true) : keysNodup (replaceKey k v kvs) = true := by
  induction kvs with
  | nil => simp [replaceKey, keysNodup]
  | cons p rest ih =>
    obtain ⟨k2, w⟩ := p
    rw [keysNodup, Bool.and_eq_true] at h
    by_cases h2 : k2 = k
    · subst h2
      rw [replaceKey, if_pos rfl, keysNodup, Bool.and_eq_true]
      exact ⟨h.1, h.2⟩
    · rw [replaceKey, if_neg h2, keysNodup, Bool.and_eq_true]
      refine ⟨?_, ih h.2⟩
      rw [any_fst_replaceKey k v (fun p2 => p2.1 == k2) (fun _ _ _ => rfl)]
      exact h.1

theorem wfObj_replaceKey (k : String) (v : Json) (kvs : List (String × Json))
    (h : wfObj kvs = true) (hv : Json.WFb v = true) :
    wfObj (replaceKey k v kvs) = true := by
  induction kvs with
  | nil => simpa [replaceKey] using h
  | cons p rest ih =>
    obtain ⟨k2, w⟩ := p
    rw [wfObj, Bool.and_eq_true] at h
    by_cases h2 : k2 = k
    · subst h2
      rw [replaceKey, if_pos rfl, wfObj, Bool.and_eq_true]
      exact ⟨hv, h.2⟩
    · rw [replaceKey, if_neg h2, wfObj, Bool.and_eq_true]
      exact ⟨h.1, ih h.2⟩

theorem WF_lookup {kvs : List (String × Json)} {k : String} {v : Json}
    (h : Json.WFb (.obj kvs) = true) (hl : lookupKey k kvs = some v) :
    Json.WFb v = true := by
  rw [Json.WFb, Bool.and_eq_true] at h
  exact wfObj_mem h.2 (lookup_mem hl)

theorem IndexHandler_normalize_WF (b : Json) (h : Json.WFb b = true) :
    Json.WFb (IndexHandler_normalize b) = true := by
  cases b with
  | obj kvs =>
    cases hs : lookupKey "settings" kvs with
    | none => simpa [IndexHandler_normalize, hs] using h
    | some sv =>
      cases sv with
      | obj s =>
        cases hi : lookupKey "index" s with
        | none => simpa [IndexHandler_normalize, hs, hi] using h
        | some iv =>
          cases iv with
          | obj idx =>
            have hsw : Json.WFb (.obj s) = true := WF_lookup h hs
            have hiw : Json.WFb (.obj idx) = true := WF_lookup hsw hi
            rw [Json.WFb, Bool.and_eq_true] at hiw
            rw [Json.WFb, Bool.and_eq_true] at h
            simp only [IndexHandler_normalize, hs, hi]
            rw [Json.WFb, Bool.and_eq_true]
            refine ⟨keysNodup_replaceKey _ _ _ h.1, ?_⟩
            refine wfObj_replaceKey _ _ _ h.2 ?_
            rw [Json.WFb, Bool.and_eq_true]
            refine ⟨by simp [keysNodup], ?_⟩
            rw [wfObj, Bool.and_eq_true]
            refine ⟨?_, by simp [wfObj]⟩
            rw [stripKeys, Json.WFb, Bool.and_eq_true]
            exact ⟨keysNodup_filter hiw.1, wfObj_filter hiw.2⟩
          | null => simpa [IndexHandler_normalize, hs, hi] using h
          | bool x => simpa [IndexHandler_normalize, hs, hi] using h
          | num x => simpa [IndexHandler_normalize, hs, hi] using h
          | str x => simpa [IndexHandler_normalize, hs, hi] using h
          | arr xs => simpa [IndexHandler_normalize, hs, hi] using h
      | null => simpa [IndexHandler_normalize, hs] using h
      | bool x => simpa [IndexHandler_normalize, hs] using h
      | num x => simpa [IndexHandler_normalize, hs] using h
      | str x => simpa [IndexHandler_normalize, hs] using h
      | arr xs => simpa [IndexHandler_normalize, hs] using h
  | null => simpa [IndexHandler_normalize] using h
  | bool x => simpa [IndexHandler_normalize] using h
  | num x => simpa [IndexHandler_normalize] using h
  | str x => simpa [IndexHandler_normalize] using h
  | arr xs => simpa [IndexHandler_normalize] using h

theorem Handler_normalize_WF (k : ResourceKind) (b : Json) (h : Json.WFb b = true) :
    Json.WFb (Handler_normalize k b) = true := by
  cases k with
  | INDEX => exact IndexHandler_normalize_WF b h
  | INDEX_TEMPLATE => exact stripTop_WF _ b h
  | COMPONENT_TEMPLATE => exact stripTop_WF _ b h
  | ILM_POLICY => exact stripTop_WF _ b h
  | INGEST_PIPELINE => exact stripTop_WF _ b h

theorem handler_put_none {k : ResourceKind} {n : String} {b : Json} {st : ESState}
    (h : (handler_put k n b st).2 = none) :
    (handler_put k n b st).1.cluster = st.cluster.set k n b := by
  cases k with
  | INDEX =>
    by_cases hx : (st.cluster.get .INDEX n).isSome
    · simp [handler_put, hx] at h
    · simp [handler_put, hx]
  | INDEX_TEMPLATE => simp [handler_put]
  | COMPONENT_TEMPLATE => simp [handler_put]
  | ILM_POLICY => simp [handler_put]
  | INGEST_PIPELINE => simp [handler_put]

theorem handler_put_some {k : ResourceKind} {n : String} {b : Json} {st : ESState}
    {e : PyError} (h : (handler_put k n b st).2 = some e) :
    (handler_put k n b st).1.cluster = st.cluster := by
  cases k with
  | INDEX =>
    by_cases hx : (st.cluster.get .INDEX n).isSome
    · simp [handler_put, hx]
    · simp [handler_put, hx] at h
  | INDEX_TEMPLATE => simp [handler_put] at h
  | COMPONENT_TEMPLATE => simp [handler_put] at h
  | ILM_POLICY => simp [handler_put] at h
  | INGEST_PIPELINE => simp [handler_put] at h

theorem handler_put_trace (k : ResourceKind) (n : String) (b : Json) (st : ESState) :
    ∃ tail : List ESEvent, (handler_put k n b st).1.trace
        = st.trace ++ ESEvent.putCall k n b :: tail
      ∧ ∀ e ∈ tail, e = ESEvent.clientWrite k n b := by
  cases k with
  | INDEX =>
    by_cases hx : (st.cluster.get .INDEX n).isSome
    · exact ⟨[], by simp [handler_put, hx]⟩
    · exact ⟨[.clientWrite .INDEX n b], by simp [handler_put, hx]⟩
  | INDEX_TEMPLATE => exact ⟨[.clientWrite .INDEX_TEMPLATE n b], by simp [handler_put]⟩
  | COMPONENT_TEMPLATE => exact ⟨[.clientWrite .COMPONENT_TEMPLATE n b], by simp [handler_put]⟩
  | ILM_POLICY => exact ⟨[.clientWrite .ILM_POLICY n b], by simp [handler_put]⟩
  | INGEST_PIPELINE => exact ⟨[.clientWrite .INGEST_PIPELINE n b], by simp [handler_put]⟩

theorem _apply_item_none {it : PlanItem} {st : ESState}
    (h : (_apply_item it st).2 = none) :
    ∃ b, it.desired_body = some b
      ∧ (_apply_item it st).1.cluster
          = st.cluster.set it.resource_type it.resource_name b := by
  cases hb : it.desired_body with
  | none => simp [_apply_item, hb] at h
  | some b =>
    refine ⟨b, rfl, ?_⟩
    rw [_apply_item] at h ⊢
    rw [hb] at h ⊢
    exact handler_put_none h

theorem _apply_item_some {it : PlanItem} {st : ESState} {e : PyError}
    (h : (_apply_item it st).2 = some e) :
    (_apply_item it st).1.cluster = st.cluster := by
  cases hb : it.desired_body with
  | none => simp [_apply_item, hb]
  | some b =>
    rw [_apply_item] at h ⊢
    rw [hb] at h ⊢
    exact handler_put_some h

theorem _apply_item_trace (it : PlanItem) (st : ESState) :
    ∃ new : List ESEvent, (_apply_item it st).1.trace = st.trace ++ new
      ∧ ∀ e ∈ new, ∃ b, it.desired_body = some b
          ∧ (e = ESEvent.putCall it.resource_type it.resource_name b
             ∨ e = ESEvent.clientWrite it.resource_type it.resource_name b) := by
  cases hb : it.desired_body with
  | none => exact ⟨[], by simp [_apply_item, hb]⟩
  | some b =>
    obtain ⟨tail, ht, he⟩ := handler_put_trace it.resource_type it.resource_name b st
    refine ⟨ESEvent.putCall it.resource_type it.resource_name b :: tail, ?_, ?_⟩
    · rw [_apply_item, hb]
      exact ht
    · intro e hm
      rcases List.mem_cons.1 hm with h2 | h2
      · exact ⟨b, rfl, Or.inl h2⟩
      · exact ⟨b, rfl, Or.inr (he e h2)⟩

theorem _apply_item_putCall {it : PlanItem} {st : ESState} {b : Json}
    (hb : it.desired_body = some b) :
    ESEvent.putCall it.resource_type it.resource_name b ∈ (_apply_item it st).1.trace := by
  obtain ⟨tail, ht, he⟩ := handler_put_trace it.resource_type it.resource_name b st
  rw [_apply_item, hb, ht]
  simp

theorem applyChanges_trace_mono (items : List PlanItem) : ∀ st : ESState,
    ∃ new : List ESEvent, (applyChanges items st).1.trace = st.trace ++ new
      ∧ ∀ e ∈ new, ∃ it ∈ items, ∃ b, it.desired_body = some b
          ∧ (e = ESEvent.putCall it.resource_type it.resource_name b
             ∨ e = ESEvent.clientWrite it.resource_type it.resource_name b) := by
  induction items with
  | nil => exact fun st => ⟨[], by simp [applyChanges], by simp⟩
  | cons it rest ih =>
    intro st
    obtain ⟨n1, h1, e1⟩ := _apply_item_trace it st
    obtain ⟨n2, h2, e2⟩ := ih (_apply_item it st).1
    refine ⟨n1 ++ n2, ?_, ?_⟩
    · rw [applyChanges]
      simp only at h2 ⊢
      rw [h2, h1, List.append_assoc]
    · intro e hm
      rcases List.mem_append.1 hm with hm | hm
      · obtain ⟨b, hb, ho⟩ := e1 e hm
        exact ⟨it, by simp, b, hb, ho⟩
      · obtain ⟨it2, hit2, b, hb, ho⟩ := e2 e hm
        exact ⟨it2, by simp [hit2], b, hb, ho⟩

theorem applyChanges_putCall (items : List PlanItem) : ∀ (st : ESState),
    ∀ it ∈ items, ∀ b : Json, it.desired_body = some b →
      ESEvent.putCall it.resource_type it.resource_name b
        ∈ (applyChanges items st).1.trace := by
  induction items with
  | nil => intro st it h; simp at h
  | cons it0 rest ih =>
    intro st it hm b hb
    obtain ⟨n2, h2, _⟩ := applyChanges_trace_mono rest (_apply_item it0 st).1
    rcases List.mem_cons.1 hm with h3 | h3
    · subst h3
      rw [applyChanges]
      simp only
      rw [h2]
      exact List.mem_append_left _ (_apply_item_putCall hb)
    · have := ih (_apply_item it0 st).1 it h3 b hb
      rw [applyChanges]
      simp only
      exact this

theorem applyChanges_results (items : List PlanItem) : ∀ st : ESState,
    ((applyChanges items st).2.1.map ItemResult.item = items)
    ∧ ((applyChanges items st).2.2 = true
        ↔ ∀ r ∈ (applyChanges items st).2.1, r.error = none) := by
  induction items with
  | nil => intro st; simp [applyChanges]
  | cons it rest ih =>
    intro st
    obtain ⟨hmap, hok⟩ := ih (_apply_item it st).1
    rw [applyChanges]
    simp only [List.map_cons, List.mem_cons]
    constructor
    · rw [hmap]
    · rw [Bool.and_eq_true, Option.isNone_iff_eq_none, hok]
      constructor
      · rintro ⟨h1, h2⟩ r (hr | hr)
        · rw [hr]
          exact h1
        · exact h2 r hr
      · intro h
        exact ⟨h _ (Or.inl rfl), fun r hr => h r (Or.inr hr)⟩

theorem applyChanges_ok (items : List PlanItem) : ∀ st : ESState,
    (items.map keyOf).Nodup →
    (applyChanges items st).2.2 = true →
    (∀ it ∈ items, ∃ b, it.desired_body = some b
        ∧ (applyChanges items st).1.cluster (keyOf it) = some b)
    ∧ ∀ key, key ∉ items.map keyOf
        → (applyChanges items st).1.cluster key = st.cluster key := by
  induction items with
  | nil =>
    intro st _ _
    exact ⟨by simp, fun key _ => by simp [applyChanges]⟩
  | cons it rest ih =>
    intro st hnd hok
    rw [applyChanges] at hok
    simp only [Bool.and_eq_true, Option.isNone_iff_eq_none] at hok
    obtain ⟨h1, h2⟩ := hok
    simp only [List.map_cons, List.nodup_cons] at hnd
    obtain ⟨hk, hnd2⟩ := hnd
    obtain ⟨hall, hother⟩ := ih (_apply_item it st).1 hnd2 h2
    obtain ⟨b, hb, hc⟩ := _apply_item_none h1
    constructor
    · intro it2 hm
      rcases List.mem_cons.1 hm with h3 | h3
      · subst h3
        refine ⟨b, hb, ?_⟩
        rw [applyChanges]
        simp only
        rw [hother (keyOf it2) hk, hc]
        simp [Cluster.set, keyOf]
      · obtain ⟨b2, hb2, hc2⟩ := hall it2 h3
        refine ⟨b2, hb2, ?_⟩
        rw [applyChanges]
        simp only
        exact hc2
    · intro key hkey
      simp only [List.map_cons, List.mem_cons] at hkey
      push_neg at hkey
      rw [applyChanges]
      simp only
      rw [hother key hkey.2, hc]
      have hne : key ≠ (it.resource_type, it.resource_name) := by
        intro he
        apply hkey.1
        rw [keyOf]
        exact he
      simp only [Cluster.set]
      rw [if_neg hne]

theorem infix_append_right {α : Type} {xs zs : List α} (ys : List α)
    (h : xs <:+: zs) : xs <:+: ys ++ zs := by
  obtain ⟨s, t, hst⟩ := h
  exact ⟨ys ++ s, t, by rw [← hst]; simp⟩

theorem joinLines_data_within {l : String} {ls : List String} (h : l ∈ ls) :
    l.data <:+: (joinLines ls).data := by
  induction ls with
  | nil => simp at h
  | cons x rest ih =>
    cases rest with
    | nil =>
      simp at h
      subst h
      exact ⟨[], [], by simp [joinLines]⟩
    | cons y ys =>
      rcases List.mem_cons.1 h with h2 | h2
      · subst h2
        refine ⟨[], ("\n" ++ joinLines (y :: ys)).data, ?_⟩
        simp [joinLines, String.data_append]
      · have h3 := ih h2
        have he : joinLines (x :: y :: ys) = x ++ "\n" ++ joinLines (y :: ys) := by
          simp [joinLines]
        rw [he]
        have h4 : (l.data <:+: ((x ++ "\n").data ++ (joinLines (y :: ys)).data)) :=
          infix_append_right _ h3
        simpa [String.data_append] using h4

theorem strContains_of_infix {s pat : String} (h : pat.data <:+: s.data) :
    strContains s pat = true := by
  rw [strContains]
  exact decide_eq_true h

theorem strContains_decomp {pre mid post : String} :
    strContains (pre ++ mid ++ post) mid = true := by
  apply strContains_of_infix
  exact ⟨pre.data, post.data, by simp [String.data_append]⟩

theorem joinLines_ne_empty {l : String} {ls : List String}
    (hm : l ∈ ls) (hl : l ≠ "") : joinLines ls ≠ "" := by
  intro he
  have h1 := joinLines_data_within hm
  rw [he] at h1
  have h2 : l.data = [] := List.eq_nil_of_infix_nil h1
  apply hl
  cases l
  simp at h2
  simp [h2]

theorem render_ne_nil (ind : Nat) (v : Json) : render ind v ≠ [] := by
  cases v with
  | arr xs => cases xs <;> simp [render]
  | obj kvs => cases kvs <;> simp [render]
  | null => simp [render]
  | bool x => simp [render]
  | num x => simp [render]
  | str x => simp [render]

theorem addComma_cons_shape (x : String) (xs : List String) :
    ∃ (t : String) (ys : List String), addComma (x :: xs) = (x ++ t) :: ys := by
  cases xs with
  | nil => exact ⟨",", [], by simp [addComma]⟩
  | cons y ys => exact ⟨"", addComma (y :: ys), by simp [addComma]⟩

theorem keyFirst_shape (ind : Nat) (k : String) (v : Json) :
    ∃ (rest : String) (tail : List String),
      keyFirst ind k (render ind v)
        = (pad ind ++ "\"" ++ escString k ++ "\": " ++ rest) :: tail := by
  cases hr : render ind v with
  | nil => exact absurd hr (render_ne_nil ind v)
  | cons l ls =>
    refine ⟨l, ls, ?_⟩
    simp [keyFirst]

theorem entriesO_key_line (ind : Nat) (kvs : List (String × Json)) :
    ∀ p ∈ kvs, ∃ line ∈ entriesO ind kvs, ∃ rest : String,
      line = pad ind ++ "\"" ++ escString p.1 ++ "\": " ++ rest := by
  induction kvs with
  | nil => simp
  | cons q rest0 ih =>
    obtain ⟨k, v⟩ := q
    intro p hp
    rcases List.mem_cons.1 hp with h2 | h2
    · subst h2
      obtain ⟨r, tail, hkf⟩ := keyFirst_shape ind k v
      cases rest0 with
      | nil =>
        have he : entriesO ind [(k, v)] = keyFirst ind k (render ind v) := by
          simp [entriesO]
        rw [he, hkf]
        exact ⟨_, by simp, r, rfl⟩
      | cons q2 rest2 =>
        have he : entriesO ind ((k, v) :: q2 :: rest2)
            = addComma (keyFirst ind k (render ind v)) ++ entriesO ind (q2 :: rest2) := by
          simp [entriesO]
        rw [he, hkf]
        obtain ⟨t, ys, hshape⟩ := addComma_cons_shape _ tail
        rw [hshape]
        refine ⟨pad ind ++ "\"" ++ escString k ++ "\": " ++ r ++ t, by simp, r ++ t, ?_⟩
        exact String.append_assoc _ r t
    · cases rest0 with
      | nil => simp at h2
      | cons q2 rest2 =>
        obtain ⟨line, hline, r, hr⟩ := ih p h2
        have he : entriesO ind ((k, v) :: q2 :: rest2)
            = addComma (keyFirst ind k (render ind v)) ++ entriesO ind (q2 :: rest2) := by
          simp [entriesO]
        rw [he]
        exact ⟨line, List.mem_append_right _ hline, r, hr⟩

theorem infixTrans {α : Type} {a b c : List α} (h1 : a <:+: b) (h2 : b <:+: c) :
    a <:+: c := by
  obtain ⟨s1, t1, hb⟩ := h1
  obtain ⟨s2, t2, hc⟩ := h2
  refine ⟨s2 ++ s1, t1 ++ t2, ?_⟩
  rw [← hc, ← hb]
  simp

theorem str_concat_ne_empty (pre mid post : String) (h : pre.data ≠ []) :
    pre ++ mid ++ post ≠ "" := by
  intro he
  apply h
  have h2 := congrArg String.data he
  simp only [String.data_append] at h2
  have h3 : pre.data = [] ∧ mid.data = [] ∧ post.data = [] := by
    rcases List.append_eq_nil.1 h2 with ⟨h4, h5⟩
    exact ⟨(List.append_eq_nil.1 h4).1, (List.append_eq_nil.1 h4).2, h5⟩
  exact h3.1

theorem createDiffLines_key {kvs : List (String × Json)} :
    ∀ p ∈ kvs, ∃ line ∈ createDiffLines (Json.obj kvs), ∃ rest : String,
      line = "+ " ++ (pad 1 ++ "\"" ++ escString p.1 ++ "\": " ++ rest) := by
  intro p hp
  obtain ⟨line, hline, rest, hr⟩ := entriesO_key_line 1 kvs p hp
  cases kvs with
  | nil => simp at hp
  | cons q rest2 =>
    refine ⟨"+ " ++ line, ?_, rest, by rw [hr]⟩
    rw [createDiffLines]
    refine List.mem_map_of_mem _ ?_
    rw [render]
    · exact List.mem_cons_of_mem _ (List.mem_append_left _ hline)
    · simp

theorem changeLines_head (ch : Change) :
    ∃ line ∈ changeLines ch, ∃ (pre post : String),
      line = pre ++ Change.path ch ++ post ∧ pre.data ≠ [] := by
  cases ch with
  | valuesChanged p o n =>
    exact ⟨"  ~ " ++ p ++ ":", by simp [changeLines], "  ~ ", ":", rfl, by decide⟩
  | dictItemAdded p v =>
    refine ⟨"  + " ++ p ++ ": " ++ dumps v, by simp [changeLines], "  + ",
      ": " ++ dumps v, ?_, by decide⟩
    rw [← String.append_assoc]
    rfl
  | dictItemRemoved p v =>
    refine ⟨"  - " ++ p ++ ": " ++ dumps v, by simp [changeLines], "  - ",
      ": " ++ dumps v, ?_, by decide⟩
    rw [← String.append_assoc]
    rfl
  | iterItemAdded p v =>
    refine ⟨"  + " ++ p ++ ": " ++ dumps v, by simp [changeLines], "  + ",
      ": " ++ dumps v, ?_, by decide⟩
    rw [← String.append_assoc]
    rfl
  | iterItemRemoved p v =>
    refine ⟨"  - " ++ p ++ ": " ++ dumps v, by simp [changeLines], "  - ",
      ": " ++ dumps v, ?_, by decide⟩
    rw [← String.append_assoc]
    rfl
  | typeChanged p o n =>
    exact ⟨"  ~ " ++ p ++ ":", by simp [changeLines], "  ~ ", ":", rfl, by decide⟩

theorem mem_updateDiffLines {cs : List Change} {ch : Change} (hch : ch ∈ cs)
    {line : String} (hl : line ∈ changeLines ch) : line ∈ updateDiffLines cs := by
  cases ch with
  | valuesChanged p o n =>
    have hm : line ∈ ((cs.filter Change.isValuesChanged).map changeLines).flatten :=
      List.mem_flatten.2 ⟨changeLines _,
        List.mem_map_of_mem _ (List.mem_filter.2 ⟨hch, by simp [Change.isValuesChanged]⟩), hl⟩
    simp [updateDiffLines, List.mem_append, hm]
  | dictItemAdded p v =>
    have hm : line ∈ ((cs.filter Change.isDictItemAdded).map changeLines).flatten :=
      List.mem_flatten.2 ⟨changeLines _,
        List.mem_map_of_mem _ (List.mem_filter.2 ⟨hch, by simp [Change.isDictItemAdded]⟩), hl⟩
    simp [updateDiffLines, List.mem_append, hm]
  | dictItemRemoved p v =>
    have hm : line ∈ ((cs.filter Change.isDictItemRemoved).map changeLines).flatten :=
      List.mem_flatten.2 ⟨changeLines _,
        List.mem_map_of_mem _ (List.mem_filter.2 ⟨hch, by simp [Change.isDictItemRemoved]⟩), hl⟩
    simp [updateDiffLines, List.mem_append, hm]
  | iterItemAdded p v =>
    have hm : line ∈ ((cs.filter Change.isIterItemAdded).map changeLines).flatten :=
      List.mem_flatten.2 ⟨changeLines _,
        List.mem_map_of_mem _ (List.mem_filter.2 ⟨hch, by simp [Change.isIterItemAdded]⟩), hl⟩
    simp [updateDiffLines, List.mem_append, hm]
  | iterItemRemoved p v =>
    have hm : line ∈ ((cs.filter Change.isIterItemRemoved).map changeLines).flatten :=
      List.mem_flatten.2 ⟨changeLines _,
        List.mem_map_of_mem _ (List.mem_filter.2 ⟨hch, by simp [Change.isIterItemRemoved]⟩), hl⟩
    simp [updateDiffLines, List.mem_append, hm]
  | typeChanged p o n =>
    have hm : line ∈ ((cs.filter Change.isTypeChanged).map changeLines).flatten :=
      List.mem_flatten.2 ⟨changeLines _,
        List.mem_map_of_mem _ (List.mem_filter.2 ⟨hch, by simp [Change.isTypeChanged]⟩), hl⟩
    simp [updateDiffLines, List.mem_append, hm]

theorem format_update_mentions {cs : List Change} (hne : cs ≠ []) :
    _format_update_diff cs ≠ ""
    ∧ ∃ ch ∈ cs, strContains (_format_update_diff cs) (Change.path ch) = true := by
  cases cs with
  | nil => exact absurd rfl hne
  | cons ch rest =>
    obtain ⟨line, hline, pre, post, hshape, hpre⟩ := changeLines_head ch
    have hmem : line ∈ updateDiffLines (ch :: rest) :=
      mem_updateDiffLines (by simp) hline
    constructor
    · rw [_format_update_diff]
      refine joinLines_ne_empty hmem ?_
      rw [hshape]
      exact str_concat_ne_empty _ _ _ hpre
    · refine ⟨ch, by simp, ?_⟩
      apply strContains_of_infix
      refine infixTrans ?_ (joinLines_data_within hmem)
      rw [hshape]
      simp only [String.data_append]
      exact ⟨pre.data, post.data, by simp⟩

theorem diff_resource_absent {r : DesiredResource} {c : Cluster}
    (h : handler_get r.resource_type r.name c = none) :
    diff_resource r c
      = ⟨r.name, r.resource_type, .CREATE, some r.body, none,
         _format_create_diff r.body⟩ := by
  simp only [diff_resource, h]

theorem diff_resource_noChange {r : DesiredResource} {c : Cluster} {cur : Json}
    (h : handler_get r.resource_type r.name c = some cur)
    (heq : deepEqual (Handler_normalize r.resource_type cur)
        (Handler_normalize r.resource_type r.body) = true) :
    diff_resource r c
      = ⟨r.name, r.resource_type, .NO_CHANGE, some r.body, some cur, ""⟩ := by
  simp only [diff_resource, h, computeDiff_isEmpty, heq, if_true]

theorem diff_resource_update {r : DesiredResource} {c : Cluster} {cur : Json}
    (h : handler_get r.resource_type r.name c = some cur)
    (hne : deepEqual (Handler_normalize r.resource_type cur)
        (Handler_normalize r.resource_type r.body) = false) :
    diff_resource r c
      = ⟨r.name, r.resource_type, .UPDATE, some r.body, some cur,
         _format_update_diff (computeDiff "root"
           (Handler_normalize r.resource_type cur)
           (Handler_normalize r.resource_type r.body))⟩ := by
  simp only [diff_resource, h, computeDiff_isEmpty, hne, Bool.false_eq_true, if_false]

theorem diff_resource_congr (r : DesiredResource) {c1 c2 : Cluster}
    (h : c1 (r.resource_type, r.name) = c2 (r.resource_type, r.name)) :
    diff_resource r c1 = diff_resource r c2 := by
  simp only [diff_resource, handler_get, Cluster.get, h]

theorem diff_resource_self (r : DesiredResource) (c : Cluster)
    (h : c (r.resource_type, r.name) = some r.body)
    (hwf : Json.WFb r.body = true) :
    (diff_resource r c).action = ResourceAction.NO_CHANGE := by
  have hg : handler_get r.resource_type r.name c = some r.body := h
  rw [diff_resource_noChange hg
    (deepEqual_refl _ (Handler_normalize_WF r.resource_type r.body hwf))]

theorem diff_resource_name (r : DesiredResource) (c : Cluster) :
    (diff_resource r c).resource_name = r.name
    ∧ (diff_resource r c).resource_type = r.resource_type := by
  cases h : handler_get r.resource_type r.name c with
  | none => rw [diff_resource_absent h]; exact ⟨rfl, rfl⟩
  | some cur =>
    cases he : deepEqual (Handler_normalize r.resource_type cur)
        (Handler_normalize r.resource_type r.body) with
    | true => rw [diff_resource_noChange h he]; exact ⟨rfl, rfl⟩
    | false => rw [diff_resource_update h he]; exact ⟨rfl, rfl⟩

theorem planItemFor_key (r : DesiredResource) (c : Cluster) :
    keyOf (planItemFor r c) = (r.resource_type, r.name) := by
  obtain ⟨h1, h2⟩ := diff_resource_name r c
  rw [keyOf, planItemFor]
  simp only
  rw [h1, h2]

theorem planItemFor_action (r : DesiredResource) (c : Cluster) :
    (planItemFor r c).action = (diff_resource r c).action := rfl

theorem planItemFor_body (r : DesiredResource) (c : Cluster) :
    (planItemFor r c).desired_body
      = if (diff_resource r c).action ≠ ResourceAction.NO_CHANGE
        then some r.body else none := rfl

theorem generate_plan_items (cn : String) (rs : List DesiredResource) (c : Cluster) :
    (generate_plan cn rs c).items = rs.map (fun r => planItemFor r c) := rfl

theorem lookup_replaceKey_ne (k k2 : String) (v : Json) (kvs : List (String × Json))
    (h : k2 ≠ k) : lookupKey k2 (replaceKey k v kvs) = lookupKey k2 kvs := by
  induction kvs with
  | nil => simp [replaceKey]
  | cons p rest ih =>
    obtain ⟨k3, w⟩ := p
    by_cases h3 : k3 = k
    · subst h3
      rw [replaceKey, if_pos rfl, lookupKey, lookupKey]
      have h4 : ¬(k3 = k2) := fun he => h (he ▸ rfl)
      rw [if_neg h4, if_neg h4]
    · rw [replaceKey, if_neg h3, lookupKey, lookupKey]
      by_cases h4 : k3 = k2
      · rw [if_pos h4, if_pos h4]
      · rw [if_neg h4, if_neg h4]
        exact ih

/-- C1 (code-bug evidence): the `ResourceType` enumeration of `types.py`
has exactly the four values listed and none of its members has the value
`"indices"`, while the handler registry of `resources/__init__.py` is keyed
by five kinds — each handler returning its own kind with one directory
name, the Index handler carrying the value `"indices"` its tests assert —
and directory names are distinct, so the registry requires a fifth
enumeration member that `types.py` does not define. -/
theorem C1_resource_kind_registry :
    (∀ t : ResourceType, t.value ≠ "indices")
    ∧ (∀ t : ResourceType,
        t.value ∈ ["index_templates", "component_templates", "ilm_policies",
          "ingest_pipelines"])
    ∧ (∀ k : ResourceKind, handler_resource_type k = k)
    ∧ ResourceKind.INDEX.value = "indices"
    ∧ handler_directory_name ResourceKind.INDEX = "indices"
    ∧ (∀ k1 k2 : ResourceKind,
        handler_directory_name k1 = handler_directory_name k2 → k1 = k2) := by
  refine ⟨?_, ?_, ?_, rfl, rfl, ?_⟩
  · intro t
    cases t <;> decide
  · intro t
    cases t <;> decide
  · intro k
    cases k <;> rfl
  · intro k1 k2
    cases k1 <;> cases k2 <;> simp [handler_directory_name]

/-- C2: writing an Index whose name already exists raises the dedicated
`IndexUpdateError` (the ImmutableResourceError kind) without touching the
cluster or issuing the underlying create call, and deleting an Index —
for any name and any cluster state, whether or not the index exists —
always raises `NotImplementedError` (the UnsupportedOperationError kind)
without performing a delete: the trace extensions contain only the
handler-level call, no client-level write or delete. -/
theorem C2_index_put_delete (name : String) (body : Json) (st : ESState) :
    ((st.cluster.get .INDEX name).isSome = true →
      (handler_put .INDEX name body st).2
          = some (.IndexUpdateError (indexExistsMsg name))
        ∧ (handler_put .INDEX name body st).1.cluster = st.cluster
        ∧ (handler_put .INDEX name body st).1.trace
            = st.trace ++ [.putCall .INDEX name body])
    ∧ ((handler_delete .INDEX name st).2
        = some (.NotImplementedError (indexDeleteMsg name))
      ∧ (handler_delete .INDEX name st).1.cluster = st.cluster
      ∧ (handler_delete .INDEX name st).1.trace
          = st.trace ++ [.deleteCall .INDEX name]) := by
  constructor
  · intro h
    refine ⟨?_, ?_, ?_⟩ <;> simp [handler_put, h]
  · refine ⟨?_, ?_, ?_⟩ <;> simp [handler_delete]

/-- Witness for C2: the put half at the sample state, where the index
`logs` exists, and the delete half at the name `missing`, which does not
exist in the cluster — delete raises regardless. -/
theorem C2_index_put_delete_witness :
    ((sampleState.cluster.get .INDEX "logs").isSome = true
      ∧ (handler_put .INDEX "logs" logsDesired sampleState).2
          = some (.IndexUpdateError (indexExistsMsg "logs"))
      ∧ (handler_put .INDEX "logs" logsDesired sampleState).1.cluster
          = sampleState.cluster
      ∧ (handler_put .INDEX "logs" logsDesired sampleState).1.trace
          = sampleState.trace ++ [.putCall .INDEX "logs" logsDesired])
    ∧ ((sampleState.cluster.get .INDEX "missing").isSome = false
      ∧ (handler_delete .INDEX "missing" sampleState).2
          = some (.NotImplementedError (indexDeleteMsg "missing"))
      ∧ (handler_delete .INDEX "missing" sampleState).1.cluster = sampleState.cluster
      ∧ (handler_delete .INDEX "missing" sampleState).1.trace
          = sampleState.trace ++ [.deleteCall .INDEX "missing"]) :=
  ⟨⟨rfl, (C2_index_put_delete "logs" logsDesired sampleState).1 rfl⟩,
   ⟨rfl, (C2_index_put_delete "missing" logsDesired sampleState).2⟩⟩

/-- C3 counterexample: on a body whose `settings` holds an `index`
sub-object next to an `analysis` sibling, `IndexHandler.normalize` strips
the server-managed fields inside `settings.index` (not inside `settings`)
and rebinds `settings` to an object holding only the cleaned `index`
entry, dropping the sibling `analysis` key — whereas the claim, which
strips only from the `settings` object itself and passes every other key
of `settings` through unchanged, would leave this body untouched. -/
theorem C3_counterexample :
    IndexHandler_normalize c3body
      = Json.obj [("settings", Json.obj [("index",
          Json.obj [("refresh_interval", Json.str "1s")])]),
          ("mappings", Json.obj [])]
    ∧ normalizeClaimC3 c3body = c3body
    ∧ ¬ IndexHandler_normalize c3body = normalizeClaimC3 c3body := by
  have h1 : IndexHandler_normalize c3body
      = Json.obj [("settings", Json.obj [("index",
          Json.obj [("refresh_interval", Json.str "1s")])]),
          ("mappings", Json.obj [])] := by
    simp [IndexHandler_normalize, c3body, lookupKey, replaceKey, stripKeys,
      _SERVER_MANAGED_FIELDS]
  have h2 : normalizeClaimC3 c3body = c3body := by
    simp [normalizeClaimC3, c3body, lookupKey, replaceKey, stripKeys,
      _SERVER_MANAGED_FIELDS]
  refine ⟨h1, h2, ?_⟩
  rw [h1, h2]
  simp [c3body]

/-- C3 amended: when the body has a `settings` member holding an `index`
sub-object, normalize pops the eight server-managed fields from
`settings.index` and rebinds `settings` to an object containing only the
cleaned `index` entry (dropping any sibling keys of `settings`), while
every top-level key other than `settings` keeps its value; when `settings`
is absent, or present without an `index` member, the body is returned
unchanged.  (Bodies whose `settings` or `settings.index` member is not an
object make the Python code raise and are outside this statement.) -/
theorem C3_normalize_amended (kvs : List (String × Json)) :
    (∀ s idx, lookupKey "settings" kvs = some (Json.obj s)
      → lookupKey "index" s = some (Json.obj idx)
      → IndexHandler_normalize (Json.obj kvs)
          = Json.obj (replaceKey "settings"
              (Json.obj [("index",
                Json.obj (stripKeys _SERVER_MANAGED_FIELDS idx))]) kvs)
        ∧ ∀ k2, k2 ≠ "settings"
          → lookupKey k2 (replaceKey "settings"
              (Json.obj [("index",
                Json.obj (stripKeys _SERVER_MANAGED_FIELDS idx))]) kvs)
            = lookupKey k2 kvs)
    ∧ (lookupKey "settings" kvs = none
        → IndexHandler_normalize (Json.obj kvs) = Json.obj kvs)
    ∧ (∀ s, lookupKey "settings" kvs = some (Json.obj s)
        → lookupKey "index" s = none
        → IndexHandler_normalize (Json.obj kvs) = Json.obj kvs) := by
  refine ⟨?_, ?_, ?_⟩
  · intro s idx hs hi
    constructor
    · simp only [IndexHandler_normalize, hs, hi]
    · intro k2 hk2
      exact lookup_replaceKey_ne "settings" k2 _ kvs hk2
  · intro hs
    simp only [IndexHandler_normalize, hs]
  · intro s hs hi
    simp only [IndexHandler_normalize, hs, hi]

/-- Witness for the amended C3 at the counterexample body. -/
theorem C3_normalize_amended_witness :
    IndexHandler_normalize c3body
      = Json.obj (replaceKey "settings"
          (Json.obj [("index", Json.obj (stripKeys _SERVER_MANAGED_FIELDS
            [("uuid", Json.str "u"), ("refresh_interval", Json.str "1s")]))])
          [("settings", Json.obj [("index", Json.obj [("uuid", Json.str "u"),
            ("refresh_interval", Json.str "1s")]),
            ("analysis", Json.obj [("x", Json.num 1)])]),
           ("mappings", Json.obj [])]) :=
  ((C3_normalize_amended
      [("settings", Json.obj [("index", Json.obj [("uuid", Json.str "u"),
        ("refresh_interval", Json.str "1s")]),
        ("analysis", Json.obj [("x", Json.num 1)])]),
       ("mappings", Json.obj [])]).1
    [("index", Json.obj [("uuid", Json.str "u"), ("refresh_interval", Json.str "1s")]),
     ("analysis", Json.obj [("x", Json.num 1)])]
    [("uuid", Json.str "u"), ("refresh_interval", Json.str "1s")]
    rfl rfl).1

/-- C4: when `fetch` returns absent, `diff_resource` reports a Create with
`current = none`, and the narrative renders every top-level key of the
desired body as an addition: for each key there is a narrative line of the
form `"+   \"key\": ..."`, and the narrative string contains the rendered
key. -/
theorem C4_create_diff (r : DesiredResource) (c : Cluster)
    (kvs : List (String × Json))
    (habs : handler_get r.resource_type r.name c = none)
    (hb : r.body = Json.obj kvs) :
    (diff_resource r c).action = ResourceAction.CREATE
    ∧ (diff_resource r c).current = none
    ∧ ∀ p ∈ kvs,
        (∃ line ∈ createDiffLines r.body, ∃ rest : String,
          line = "+ " ++ (pad 1 ++ "\"" ++ escString p.1 ++ "\": " ++ rest))
        ∧ strContains (diff_resource r c).diff_details
            ("\"" ++ escString p.1 ++ "\": ") = true := by
  rw [diff_resource_absent habs]
  refine ⟨rfl, rfl, ?_⟩
  intro p hp
  rw [hb]
  obtain ⟨line, hline, rest, hshape⟩ := createDiffLines_key p hp
  refine ⟨⟨line, hline, rest, hshape⟩, ?_⟩
  apply strContains_of_infix
  rw [_format_create_diff]
  refine infixTrans ?_ (joinLines_data_within hline)
  rw [hshape]
  simp only [String.data_append]
  exact ⟨("+ ").data ++ (pad 1).data, rest.data, by simp⟩

/-- Witness for C4: an index template absent from the sample cluster; both
top-level keys of its body are rendered as additions. -/
theorem C4_create_diff_witness :
    (handler_get ResourceKind.INDEX_TEMPLATE "t1" sampleCluster = none)
    ∧ (diff_resource ⟨"t1", .INDEX_TEMPLATE, tmplBody⟩ sampleCluster).action
        = ResourceAction.CREATE
    ∧ (diff_resource ⟨"t1", .INDEX_TEMPLATE, tmplBody⟩ sampleCluster).current = none
    ∧ strContains (diff_resource ⟨"t1", .INDEX_TEMPLATE, tmplBody⟩
        sampleCluster).diff_details ("\"" ++ escString "template" ++ "\": ") = true
    ∧ strContains (diff_resource ⟨"t1", .INDEX_TEMPLATE, tmplBody⟩
        sampleCluster).diff_details ("\"" ++ escString "priority" ++ "\": ") = true :=
  ⟨rfl,
   (C4_create_diff ⟨"t1", .INDEX_TEMPLATE, tmplBody⟩ sampleCluster
      [("template", Json.obj []), ("priority", Json.num 5)] rfl rfl).1,
   (C4_create_diff ⟨"t1", .INDEX_TEMPLATE, tmplBody⟩ sampleCluster
      [("template", Json.obj []), ("priority", Json.num 5)] rfl rfl).2.1,
   ((C4_create_diff ⟨"t1", .INDEX_TEMPLATE, tmplBody⟩ sampleCluster
      [("template", Json.obj []), ("priority", Json.num 5)] rfl rfl).2.2
      ("template", Json.obj []) (by simp)).2,
   ((C4_create_diff ⟨"t1", .INDEX_TEMPLATE, tmplBody⟩ sampleCluster
      [("template", Json.obj []), ("priority", Json.num 5)] rfl rfl).2.2
      ("priority", Json.num 5) (by simp)).2⟩

/-- C5: when the resource exists and the normalized current and desired
bodies are order-insensitively equal, the diff is NoChange with an empty
narrative — in particular list-element order and server-managed field
values cannot produce an Update, since the hypothesis is exactly the
order-insensitive comparison of the normalized bodies. -/
theorem C5_noChange (r : DesiredResource) (c : Cluster) (cur : Json)
    (hget : handler_get r.resource_type r.name c = some cur)
    (heq : deepEqual (Handler_normalize r.resource_type cur)
        (Handler_normalize r.resource_type r.body) = true) :
    (diff_resource r c).action = ResourceAction.NO_CHANGE
    ∧ (diff_resource r c).diff_details = "" := by
  rw [diff_resource_noChange hget heq]
  exact ⟨rfl, rfl⟩

/-- Witness for C5: the stored policy and the desired one differ in the
order of the `phases` list and in the server-managed `version` number, yet
the diff is NoChange with an empty narrative. -/
theorem C5_noChange_witness :
    (handler_get ResourceKind.ILM_POLICY "logs-policy" sampleCluster = some ilmCur)
    ∧ deepEqual (Handler_normalize .ILM_POLICY ilmCur)
        (Handler_normalize .ILM_POLICY ilmDesSame) = true
    ∧ (diff_resource ⟨"logs-policy", .ILM_POLICY, ilmDesSame⟩ sampleCluster).action
        = ResourceAction.NO_CHANGE
    ∧ (diff_resource ⟨"logs-policy", .ILM_POLICY, ilmDesSame⟩
        sampleCluster).diff_details = "" := by
  have heq : deepEqual (Handler_normalize .ILM_POLICY ilmCur)
      (Handler_normalize .ILM_POLICY ilmDesSame) = true := by
    simp [Handler_normalize, stripTop, stripKeys, ilmCur, ilmDesSame, deepEqual,
      msetEq, extractFirst, objFwd, keysBack, lookupKey]
  exact ⟨rfl, heq,
    (C5_noChange ⟨"logs-policy", .ILM_POLICY, ilmDesSame⟩ sampleCluster ilmCur rfl heq).1,
    (C5_noChange ⟨"logs-policy", .ILM_POLICY, ilmDesSame⟩ sampleCluster ilmCur rfl heq).2⟩

/-- C6: when the resource exists and the normalized bodies differ under
the order-insensitive structural comparison, the diff is an Update whose
narrative is non-empty and contains the path of at least one change
record. -/
theorem C6_update (r : DesiredResource) (c : Cluster) (cur : Json)
    (hget : handler_get r.resource_type r.name c = some cur)
    (hne : deepEqual (Handler_normalize r.resource_type cur)
        (Handler_normalize r.resource_type r.body) = false) :
    (diff_resource r c).action = ResourceAction.UPDATE
    ∧ (diff_resource r c).diff_details ≠ ""
    ∧ ∃ ch ∈ computeDiff "root" (Handler_normalize r.resource_type cur)
          (Handler_normalize r.resource_type r.body),
        strContains (diff_resource r c).diff_details (Change.path ch) = true := by
  rw [diff_resource_update hget hne]
  have hcs : computeDiff "root" (Handler_normalize r.resource_type cur)
      (Handler_normalize r.resource_type r.body) ≠ [] := by
    intro he
    have h3 := computeDiff_isEmpty (Handler_normalize r.resource_type cur)
      (Handler_normalize r.resource_type r.body) "root"
    rw [he, hne] at h3
    simp at h3
  obtain ⟨h1, h2⟩ := format_update_mentions hcs
  exact ⟨rfl, h1, h2⟩

/-- Witness for C6: the desired policy changes `min_age` from 30d to 90d;
the diff is an Update with a non-empty narrative naming a changed path. -/
theorem C6_update_witness :
    (handler_get ResourceKind.ILM_POLICY "logs-policy" sampleCluster = some ilmCur)
    ∧ deepEqual (Handler_normalize .ILM_POLICY ilmCur)
        (Handler_normalize .ILM_POLICY ilmDesChanged) = false
    ∧ (diff_resource ⟨"logs-policy", .ILM_POLICY, ilmDesChanged⟩ sampleCluster).action
        = ResourceAction.UPDATE
    ∧ (diff_resource ⟨"logs-policy", .ILM_POLICY, ilmDesChanged⟩
        sampleCluster).diff_details ≠ ""
    ∧ ∃ ch ∈ computeDiff "root" (Handler_normalize .ILM_POLICY ilmCur)
          (Handler_normalize .ILM_POLICY ilmDesChanged),
        strContains (diff_resource ⟨"logs-policy", .ILM_POLICY, ilmDesChanged⟩
          sampleCluster).diff_details (Change.path ch) = true := by
  have hne : deepEqual (Handler_normalize .ILM_POLICY ilmCur)
      (Handler_normalize .ILM_POLICY ilmDesChanged) = false := by
    simp [Handler_normalize, stripTop, stripKeys, ilmCur, ilmDesChanged, deepEqual,
      msetEq, extractFirst, objFwd, keysBack, lookupKey]
  refine ⟨rfl, hne, ?_, ?_, ?_⟩
  · exact (C6_update ⟨"logs-policy", .ILM_POLICY, ilmDesChanged⟩ sampleCluster
      ilmCur rfl hne).1
  · exact (C6_update ⟨"logs-policy", .ILM_POLICY, ilmDesChanged⟩ sampleCluster
      ilmCur rfl hne).2.1
  · exact (C6_update ⟨"logs-policy", .ILM_POLICY, ilmDesChanged⟩ sampleCluster
      ilmCur rfl hne).2.2

/-- C7 amended: apply processes every actionable item in order regardless
of earlier failures — the per-item results pair each actionable item with
its captured error in order, the aggregate is true exactly when every
actionable item succeeded, and a handler write call occurs for every
actionable item that carries a body to apply (an actionable item without a
body is recorded as an `ApplyError` without a write call). -/
theorem C7_isolation (plan : Plan) (st : ESState) :
    ((apply_plan plan st).2.1.map ItemResult.item
        = plan.items.filter (fun i => decide (i.action ≠ ResourceAction.NO_CHANGE)))
    ∧ ((apply_plan plan st).2.2 = true
        ↔ ∀ res ∈ (apply_plan plan st).2.1, res.error = none)
    ∧ ∀ it ∈ plan.items.filter (fun i => decide (i.action ≠ ResourceAction.NO_CHANGE)),
        ∀ b : Json, it.desired_body = some b →
          ESEvent.putCall it.resource_type it.resource_name b
            ∈ (apply_plan plan st).1.trace := by
  refine ⟨(applyChanges_results _ st).1, (applyChanges_results _ st).2, ?_⟩
  intro it hit b hb
  exact applyChanges_putCall _ st it hit b hb

/-- C7 counterexample: in a plan whose first actionable item fails (the
index update) and whose second actionable item carries no body, the second
item is processed and recorded as a failure, but no handler write call for
it ever occurs — the whole trace holds only the first item`s put call —
so the claim that the handler write calls of every subsequent actionable
item occur is false as stated. -/
theorem C7_counterexample :
    ((apply_plan planC7ce sampleState).2.1.map (fun res => res.error.isSome)
        = [true, true])
    ∧ (apply_plan planC7ce sampleState).2.2 = false
    ∧ (apply_plan planC7ce sampleState).1.trace
        = [ESEvent.putCall .INDEX "logs" logsDesired] := by
  refine ⟨rfl, rfl, rfl⟩

/-- Witness for the amended C7 at the three-item scenario: the results
pair the three actionable items in order, the write call of the third item
occurs although the second item failed, and the aggregate equivalence
holds. -/
theorem C7_isolation_witness :
    ((apply_plan planC7w sampleState).2.1.map ItemResult.item
        = planC7w.items.filter (fun i => decide (i.action ≠ ResourceAction.NO_CHANGE)))
    ∧ ESEvent.putCall ResourceKind.ILM_POLICY "logs-policy" ilmDesChanged
        ∈ (apply_plan planC7w sampleState).1.trace
    ∧ ((apply_plan planC7w sampleState).2.2 = true
        ↔ ∀ res ∈ (apply_plan planC7w sampleState).2.1, res.error = none) :=
  ⟨(C7_isolation planC7w sampleState).1,
   (C7_isolation planC7w sampleState).2.2 itIlm
     (show itIlm ∈ [itPipe, itIdxFail, itIlm] by
       exact List.mem_cons_of_mem _ (List.mem_cons_of_mem _ (List.mem_cons_self _ _)))
     ilmDesChanged rfl,
   (C7_isolation planC7w sampleState).2.1⟩

/-- C8 amended: when applying the generated plan reports that every
actionable item succeeded, regenerating a plan from the same desired
resources (well-formed bodies, distinct (kind, name) keys, as the Loader
guarantees) against the updated cluster yields only NoChange items.  (When
a write fails — e.g. the create-only Index handler refusing an Update —
the cluster keeps its old state and the regenerated plan repeats the
item, which is the counterexample to the claim as stated.) -/
theorem C8_idempotent (cn : String) (rs : List DesiredResource) (st : ESState)
    (hwf : ∀ r ∈ rs, Json.WFb r.body = true)
    (hnd : (rs.map (fun r => (r.resource_type, r.name))).Nodup)
    (hok : (apply_plan (generate_plan cn rs st.cluster) st).2.2 = true) :
    ∀ it ∈ (generate_plan cn rs
        (apply_plan (generate_plan cn rs st.cluster) st).1.cluster).items,
      it.action = ResourceAction.NO_CHANGE := by
  intro it hit
  rw [generate_plan_items] at hit
  obtain ⟨r, hr, rfl⟩ := List.mem_map.1 hit
  rw [planItemFor_action, apply_plan]
  have hmapkeys : (generate_plan cn rs st.cluster).items.map keyOf
      = rs.map (fun r2 => (r2.resource_type, r2.name)) := by
    rw [generate_plan_items, List.map_map]
    exact List.map_congr_left (fun r2 _ => planItemFor_key r2 st.cluster)
  have hchsub : List.Sublist
      (((generate_plan cn rs st.cluster).items.filter
        (fun i => decide (i.action ≠ ResourceAction.NO_CHANGE))).map keyOf)
      ((generate_plan cn rs st.cluster).items.map keyOf) :=
    (List.filter_sublist _).map keyOf
  have hitemsnd : ((generate_plan cn rs st.cluster).items.map keyOf).Nodup := by
    rw [hmapkeys]
    exact hnd
  have hchnd : (((generate_plan cn rs st.cluster).items.filter
      (fun i => decide (i.action ≠ ResourceAction.NO_CHANGE))).map keyOf).Nodup :=
    List.Nodup.sublist hchsub hitemsnd
  obtain ⟨hall, hother⟩ := applyChanges_ok
    ((generate_plan cn rs st.cluster).items.filter
      (fun i => decide (i.action ≠ ResourceAction.NO_CHANGE))) st hchnd hok
  by_cases hact : (diff_resource r st.cluster).action = ResourceAction.NO_CHANGE
  · have hkeyfree : (r.resource_type, r.name)
        ∉ ((generate_plan cn rs st.cluster).items.filter
          (fun i => decide (i.action ≠ ResourceAction.NO_CHANGE))).map keyOf := by
      intro hmem
      obtain ⟨it2, hit2, hkey2⟩ := List.mem_map.1 hmem
      have hit3 := List.mem_filter.1 hit2
      rw [generate_plan_items] at hit3
      obtain ⟨hmm, hpred⟩ := hit3
      obtain ⟨r2, hr2, rfl⟩ := List.mem_map.1 hmm
      rw [planItemFor_key] at hkey2
      have hr2r : r2 = r :=
        List.inj_on_of_nodup_map hnd hr2 hr hkey2
      subst hr2r
      rw [planItemFor_action] at hpred
      simp [hact] at hpred
    have hsame := hother (r.resource_type, r.name) hkeyfree
    have hcongr := diff_resource_congr r hsame
    rw [hcongr]
    exact hact
  · have hitem : planItemFor r st.cluster
        ∈ (generate_plan cn rs st.cluster).items.filter
          (fun i => decide (i.action ≠ ResourceAction.NO_CHANGE)) := by
      refine List.mem_filter.2 ⟨?_, ?_⟩
      · rw [generate_plan_items]
        exact List.mem_map_of_mem _ hr
      · rw [planItemFor_action]
        simp [hact]
    obtain ⟨b, hb, hcb⟩ := hall _ hitem
    rw [planItemFor_body, if_pos hact] at hb
    have hbr : b = r.body := by
      injection hb with h
      exact h.symm
    subst hbr
    rw [planItemFor_key] at hcb
    exact diff_resource_self r _ hcb (hwf r hr)

/-- C8 counterexample: the desired index `logs` differs from the stored
one, so the plan holds one Update item; applying it fails (the Index
handler refuses to overwrite an existing index) and leaves the cluster
unchanged, so the regenerated plan holds the same Update item instead of
zero Create/Update items. -/
theorem C8_counterexample :
    ((generate_plan "prod" [rIdxUpd] sampleState.cluster).items.map PlanItem.action
        = [ResourceAction.UPDATE])
    ∧ ((apply_plan (generate_plan "prod" [rIdxUpd] sampleState.cluster)
          sampleState).2.2 = false)
    ∧ ((generate_plan "prod" [rIdxUpd]
          (apply_plan (generate_plan "prod" [rIdxUpd] sampleState.cluster)
            sampleState).1.cluster).items.map PlanItem.action
        = [ResourceAction.UPDATE]) := by
  have hget : handler_get rIdxUpd.resource_type rIdxUpd.name sampleState.cluster
      = some logsBody := rfl
  have hne : deepEqual (Handler_normalize rIdxUpd.resource_type logsBody)
      (Handler_normalize rIdxUpd.resource_type rIdxUpd.body) = false := by
    simp [rIdxUpd, Handler_normalize, IndexHandler_normalize, logsBody, logsDesired,
      lookupKey, replaceKey, stripKeys, _SERVER_MANAGED_FIELDS, deepEqual, objFwd,
      keysBack, msetEq, extractFirst]
  have hdiff := diff_resource_update hget hne
  obtain ⟨dd, hitem⟩ : ∃ dd, planItemFor rIdxUpd sampleState.cluster
      = ⟨"logs", ResourceKind.INDEX, ResourceAction.UPDATE, some logsDesired, dd⟩ :=
    ⟨_, by rw [planItemFor, hdiff]; simp [rIdxUpd]; rfl⟩
  have hplan : generate_plan "prod" [rIdxUpd] sampleState.cluster
      = ⟨"prod", [⟨"logs", ResourceKind.INDEX, ResourceAction.UPDATE,
          some logsDesired, dd⟩]⟩ := by
    rw [generate_plan]
    simp only [List.map_cons, List.map_nil]
    rw [hitem]
  have h1 : (generate_plan "prod" [rIdxUpd] sampleState.cluster).items.map
      PlanItem.action = [ResourceAction.UPDATE] := by
    rw [hplan]
    simp only [List.map_cons, List.map_nil]
  refine ⟨h1, ?_, ?_⟩
  · rw [hplan]
    rfl
  · have hc : (apply_plan (Plan.mk "prod" [⟨"logs", ResourceKind.INDEX,
        ResourceAction.UPDATE, some logsDesired, dd⟩]) sampleState).1.cluster
        = sampleState.cluster := rfl
    rw [hplan, hc]
    exact h1

/-- Witness for the amended C8: one new ingest pipeline, absent from the
sample cluster; applying the generated plan succeeds, and the item of the
regenerated plan is NoChange. -/
theorem C8_idempotent_witness :
    (planItemFor ⟨"pipe", .INGEST_PIPELINE, pipBody⟩
      (apply_plan (generate_plan "prod" [⟨"pipe", .INGEST_PIPELINE, pipBody⟩]
          sampleState.cluster) sampleState).1.cluster).action
      = ResourceAction.NO_CHANGE := by
  obtain ⟨ddc, hitem⟩ : ∃ dd, planItemFor ⟨"pipe", .INGEST_PIPELINE, pipBody⟩
      sampleState.cluster
      = ⟨"pipe", ResourceKind.INGEST_PIPELINE, ResourceAction.CREATE,
          some pipBody, dd⟩ :=
    ⟨_, by
      rw [planItemFor,
        @diff_resource_absent ⟨"pipe", .INGEST_PIPELINE, pipBody⟩ sampleState.cluster rfl]
      simp
      rfl⟩
  have hplan : generate_plan "prod" [⟨"pipe", .INGEST_PIPELINE, pipBody⟩]
      sampleState.cluster
      = ⟨"prod", [⟨"pipe", ResourceKind.INGEST_PIPELINE, ResourceAction.CREATE,
          some pipBody, ddc⟩]⟩ := by
    rw [generate_plan]
    simp only [List.map_cons, List.map_nil]
    rw [hitem]
  have hok : (apply_plan (generate_plan "prod"
      [⟨"pipe", .INGEST_PIPELINE, pipBody⟩] sampleState.cluster)
      sampleState).2.2 = true := by
    rw [hplan]
    rfl
  have hwf : ∀ r ∈ [(⟨"pipe", .INGEST_PIPELINE, pipBody⟩ : DesiredResource)],
      Json.WFb r.body = true := by
    intro r hr
    simp at hr
    subst hr
    simp [pipBody, Json.WFb, keysNodup, wfObj, wfList]
  have hnd : (([(⟨"pipe", .INGEST_PIPELINE, pipBody⟩ : DesiredResource)]).map
      (fun r => (r.resource_type, r.name))).Nodup := by
    simp
  exact C8_idempotent "prod" [⟨"pipe", .INGEST_PIPELINE, pipBody⟩] sampleState
    hwf hnd hok
    (planItemFor ⟨"pipe", .INGEST_PIPELINE, pipBody⟩
      (apply_plan (generate_plan "prod" [⟨"pipe", .INGEST_PIPELINE, pipBody⟩]
          sampleState.cluster) sampleState).1.cluster)
    (by rw [generate_plan_items]; exact List.mem_cons_self _ _)

theorem get_map_own {α β : Type} (f : α → β) : ∀ (l : List α) (i : Nat)
    (h1 : i < l.length) (h2 : i < (l.map f).length),
    (l.map f).get ⟨i, h2⟩ = f (l.get ⟨i, h1⟩) := by
  intro l
  induction l with
  | nil =>
    intro i h1
    simp at h1
  | cons x xs ih =>
    intro i h1 h2
    cases i with
    | zero => rfl
    | succ n => exact ih n (by simpa using h1) (by simpa using h2)

/-- C9: the generated plan has one item per desired resource in the same
order; each item is the projection of the diff of the corresponding
resource, whose body to apply is the desired body, dropped exactly when
the action is NoChange. -/
theorem C9_plan_projection (cn : String) (rs : List DesiredResource) (c : Cluster) :
    (generate_plan cn rs c).items.length = rs.length
    ∧ (∀ i (h : i < rs.length) (h2 : i < (generate_plan cn rs c).items.length),
        (generate_plan cn rs c).items.get ⟨i, h2⟩
          = { resource_name := (diff_resource (rs.get ⟨i, h⟩) c).resource_name
              resource_type := (diff_resource (rs.get ⟨i, h⟩) c).resource_type
              action := (diff_resource (rs.get ⟨i, h⟩) c).action
              desired_body :=
                if (diff_resource (rs.get ⟨i, h⟩) c).action ≠ ResourceAction.NO_CHANGE
                then some (rs.get ⟨i, h⟩).body else none
              diff_details := (diff_resource (rs.get ⟨i, h⟩) c).diff_details })
    ∧ ∀ it ∈ (generate_plan cn rs c).items,
        (it.desired_body = none ↔ it.action = ResourceAction.NO_CHANGE) := by
  refine ⟨by simp [generate_plan_items], ?_, ?_⟩
  · intro i h h2
    exact (get_map_own (fun r => planItemFor r c) rs i h h2).trans rfl
  · intro it hit
    rw [generate_plan_items] at hit
    obtain ⟨r, hr, rfl⟩ := List.mem_map.1 hit
    rw [planItemFor_body, planItemFor_action]
    by_cases hact : (diff_resource r c).action = ResourceAction.NO_CHANGE
    · simp [hact]
    · simp [hact]

/-- Witness for C9 at a one-resource plan over the sample cluster. -/
theorem C9_plan_projection_witness :
    (generate_plan "prod" [rIdxUpd] sampleState.cluster).items.length = 1
    ∧ (generate_plan "prod" [rIdxUpd] sampleState.cluster).items.get
        ⟨0, by simp [generate_plan_items]⟩
      = { resource_name := (diff_resource rIdxUpd sampleState.cluster).resource_name
          resource_type := (diff_resource rIdxUpd sampleState.cluster).resource_type
          action := (diff_resource rIdxUpd sampleState.cluster).action
          desired_body :=
            if (diff_resource rIdxUpd sampleState.cluster).action
                ≠ ResourceAction.NO_CHANGE
            then some rIdxUpd.body else none
          diff_details := (diff_resource rIdxUpd sampleState.cluster).diff_details } :=
  ⟨(C9_plan_projection "prod" [rIdxUpd] sampleState.cluster).1,
   (C9_plan_projection "prod" [rIdxUpd] sampleState.cluster).2.1 0 (by decide)
     (by simp [generate_plan_items])⟩

/-- C10: every event the applier adds to the trace is a handler put call,
or the client write that put issues, for an item of the plan whose action
is not NoChange and that carries a body — in particular no handler delete
call and no client delete request is ever added. -/
theorem C10_apply_only_puts (plan : Plan) (st : ESState) :
    ∀ e ∈ (apply_plan plan st).1.trace, e ∉ st.trace →
      ∃ it ∈ plan.items, it.action ≠ ResourceAction.NO_CHANGE
        ∧ ∃ b, it.desired_body = some b
        ∧ (e = ESEvent.putCall it.resource_type it.resource_name b
           ∨ e = ESEvent.clientWrite it.resource_type it.resource_name b)
        ∧ (∀ k n, e ≠ ESEvent.deleteCall k n ∧ e ≠ ESEvent.clientDelete k n) := by
  intro e he hnot
  obtain ⟨new, htr, hev⟩ := applyChanges_trace_mono
    (plan.items.filter (fun i => decide (i.action ≠ ResourceAction.NO_CHANGE))) st
  rw [apply_plan] at he
  rw [htr] at he
  rcases List.mem_append.1 he with he2 | he2
  · exact absurd he2 hnot
  · obtain ⟨it, hit, b, hb, ho⟩ := hev e he2
    have hit2 := List.mem_filter.1 hit
    refine ⟨it, hit2.1, by simpa using hit2.2, b, hb, ho, ?_⟩
    intro k n
    rcases ho with ho | ho <;> rw [ho] <;>
      exact ⟨(fun h => ESEvent.noConfusion h), (fun h => ESEvent.noConfusion h)⟩

/-- Witness for C10: in the three-item scenario the put call of the first
pipeline item is an added trace event and the theorem attributes it to an
actionable item. -/
theorem C10_apply_only_puts_witness :
    ∃ it ∈ planC7w.items, it.action ≠ ResourceAction.NO_CHANGE
      ∧ ∃ b, it.desired_body = some b
      ∧ (ESEvent.putCall .INGEST_PIPELINE "p1" pipBody
            = ESEvent.putCall it.resource_type it.resource_name b
         ∨ ESEvent.putCall .INGEST_PIPELINE "p1" pipBody
            = ESEvent.clientWrite it.resource_type it.resource_name b)
      ∧ (∀ k n, ESEvent.putCall .INGEST_PIPELINE "p1" pipBody
            ≠ ESEvent.deleteCall k n
          ∧ ESEvent.putCall .INGEST_PIPELINE "p1" pipBody
            ≠ ESEvent.clientDelete k n) :=
  C10_apply_only_puts planC7w sampleState
    (ESEvent.putCall .INGEST_PIPELINE "p1" pipBody)
    (by exact List.mem_cons_self _ _)
    (by simp [sampleState])
